import Mathlib

/-!
The input-translation engine of macintroller

A shallow embedding of `main.go`: the axis, button and trigger translators,
the registry (`controller`) built by `newController`, and the body of the
event loop of `main`.

Conventions of the embedding.

* Go `int` is the 64-bit two's-complement integer of the darwin targets.
  Values are `Int`; the only arithmetic the program does on them is the unary
  minus of `axis.handleEvent`, which wraps (`negInt`).
* A `C.CGEventRef` is a record carrying the identity of the native object,
  the key code and the direction it was built with.  The native objects made
  so far form the heap, a list in order of construction.
* `C.CGEventPost` is a writer effect: every function that posts returns the
  list of posted handles in order.
* A Go map is an association list in iteration order; `for k, v := range m`
  visits it in list order, so a statement about all lists covers every
  iteration order Go may pick.
-/

namespace Macintroller

/-! ## Go integers -/

/-- Smallest value of Go `int` on a 64-bit target. -/
def minInt : Int := -9223372036854775808

/-- Largest value of Go `int` on a 64-bit target. -/
def maxInt : Int := 9223372036854775807

/-- Membership of an integer in the range of Go `int`. -/
def isInt (x : Int) : Prop := minInt ≤ x ∧ x ≤ maxInt

instance (x : Int) : Decidable (isInt x) := by
  unfold isInt; exact inferInstance

/-- Reduction of a mathematical integer to the 64-bit two's-complement value
with the same low 64 bits. -/
def wrap64 (x : Int) : Int := (x - minInt) % 18446744073709551616 + minInt

/-- Go unary minus on `int`: `-x` with wrap-around (`-minInt = minInt`). -/
def negInt (x : Int) : Int := wrap64 (-x)

/-! ## Native key events -/

/-- A native keyboard event object (`C.CGEventRef`, non-nil). -/
structure CGEventRef where
  /-- Identity of the native object: its position in the heap. -/
  id : Nat
  /-- The virtual key code the event was built with. -/
  keyCode : Nat
  /-- The direction: `true` for a key press, `false` for a key release. -/
  keyDown : Bool
deriving DecidableEq, Repr

/-- The conversion `C.CGKeyCode(val)`: `CGKeyCode` is `uint16`, the conversion
keeps the low 16 bits. -/
def CGKeyCode (val : Int) : Nat := (val % 65536).toNat

/-- The call `C.CGEventCreateKeyboardEvent(nil, code, keyDown)`.  Whether the
platform can build the event is the parameter `creatable`; on success a new
object is appended to the heap, on failure the result is nil (`none`). -/
def CGEventCreateKeyboardEvent (creatable : Nat → Bool → Bool)
    (heap : List CGEventRef) (code : Nat) (keyDown : Bool) :
    Option CGEventRef × List CGEventRef :=
  if creatable code keyDown then
    (some ⟨heap.length, code, keyDown⟩, heap ++ [⟨heap.length, code, keyDown⟩])
  else
    (none, heap)

/-- Errors returned by the construction functions. -/
inductive Err where
  /-- The error `fmt.Errorf("unable to create key %d", val)`. -/
  | unableToCreateKey (val : Int)
  /-- The error of `strconv.Atoi` on the given string. -/
  | atoi (s : String)
deriving DecidableEq, Repr

instance {α : Type} [DecidableEq α] : DecidableEq (Except Err α)
  | .ok a, .ok b =>
    if h : a = b then isTrue (by rw [h]) else isFalse (fun h2 => h (Except.ok.inj h2))
  | .error a, .error b =>
    if h : a = b then isTrue (by rw [h]) else isFalse (fun h2 => h (Except.error.inj h2))
  | .ok _, .error _ => isFalse (fun h => Except.noConfusion h)
  | .error _, .ok _ => isFalse (fun h => Except.noConfusion h)

/-- The function `createKey`: build the release event, then the press
event. -/
def createKey (creatable : Nat → Bool → Bool) (heap : List CGEventRef) (val : Int) :
    Except Err (CGEventRef × CGEventRef) × List CGEventRef :=
  match CGEventCreateKeyboardEvent creatable heap (CGKeyCode val) false with
  | (none, heap1) => (.error (.unableToCreateKey val), heap1)
  | (some up, heap1) =>
    match CGEventCreateKeyboardEvent creatable heap1 (CGKeyCode val) true with
    | (none, heap2) => (.error (.unableToCreateKey val), heap2)
    | (some down, heap2) => (.ok (up, down), heap2)

/-! ## Axis -/

/-- The struct `axis`. -/
structure axis where
  threshold : Int
  negative : Bool
  positive : Bool
  nUp : CGEventRef
  nDown : CGEventRef
  pUp : CGEventRef
  pDown : CGEventRef
deriving DecidableEq, Repr

/-- The function `openAxis`. -/
def openAxis (creatable : Nat → Bool → Bool) (heap : List CGEventRef)
    (threshold neg pos : Int) : Except Err axis × List CGEventRef :=
  match createKey creatable heap neg with
  | (.error err, heap1) => (.error err, heap1)
  | (.ok (nUp, nDown), heap1) =>
    match createKey creatable heap1 pos with
    | (.error err, heap2) => (.error err, heap2)
    | (.ok (pUp, pDown), heap2) =>
      (.ok { threshold := threshold, negative := false, positive := false,
             nUp := nUp, nDown := nDown, pUp := pUp, pDown := pDown }, heap2)

/-- The method `axis.close`: the released handles, in order. -/
def axis.close (a : axis) : List CGEventRef := [a.nUp, a.nDown, a.pUp, a.pDown]

/-- The first `if`/`else if` of `axis.handleEvent`: the negative direction. -/
def axis.handleNegative (a : axis) (val : Int) : axis × List CGEventRef :=
  if val ≤ negInt a.threshold ∧ a.negative = false then
    ({ a with negative := true }, [a.nDown])
  else if val > negInt a.threshold ∧ a.negative = true then
    ({ a with negative := false }, [a.nUp])
  else
    (a, [])

/-- The second `if`/`else if` of `axis.handleEvent`: the positive direction. -/
def axis.handlePositive (a : axis) (val : Int) : axis × List CGEventRef :=
  if val ≥ a.threshold ∧ a.positive = false then
    ({ a with positive := true }, [a.pDown])
  else if val < a.threshold ∧ a.positive = true then
    ({ a with positive := false }, [a.pUp])
  else
    (a, [])

/-- The method `axis.handleEvent`: the axis after the call and the events
posted by it, in order. -/
def axis.handleEvent (a : axis) (val : Int) : axis × List CGEventRef :=
  (((a.handleNegative val).1.handlePositive val).1,
   (a.handleNegative val).2 ++ ((a.handleNegative val).1.handlePositive val).2)

/-- A sequence of calls of `axis.handleEvent`, one per sample. -/
def axis.run (a : axis) : List Int → axis × List CGEventRef
  | [] => (a, [])
  | v :: vs =>
    (((a.handleEvent v).1.run vs).1, (a.handleEvent v).2 ++ ((a.handleEvent v).1.run vs).2)

/-! ## Button -/

/-- The struct `button`. -/
structure button where
  up : CGEventRef
  down : CGEventRef
deriving DecidableEq, Repr

/-- The function `openButton`. -/
def openButton (creatable : Nat → Bool → Bool) (heap : List CGEventRef) (val : Int) :
    Except Err button × List CGEventRef :=
  match createKey creatable heap val with
  | (.error err, heap1) => (.error err, heap1)
  | (.ok (up, down), heap1) => (.ok { up := up, down := down }, heap1)

/-- The method `button.close`: the released handles, in order. -/
def button.close (b : button) : List CGEventRef := [b.up, b.down]

/-- The method `button.handleUp`. -/
def button.handleUp (b : button) : button × List CGEventRef := (b, [b.up])

/-- The method `button.handleDown`. -/
def button.handleDown (b : button) : button × List CGEventRef := (b, [b.down])

/-! ## Trigger -/

/-- The struct `trigger`. -/
structure trigger where
  threshold : Int
  active : Bool
  up : CGEventRef
  down : CGEventRef
deriving DecidableEq, Repr

/-- The function `openTrigger`. -/
def openTrigger (creatable : Nat → Bool → Bool) (heap : List CGEventRef)
    (threshold val : Int) : Except Err trigger × List CGEventRef :=
  match createKey creatable heap val with
  | (.error err, heap1) => (.error err, heap1)
  | (.ok (up, down), heap1) =>
    (.ok { threshold := threshold, active := false, up := up, down := down }, heap1)

/-- The method `trigger.handleEvent`: the trigger after the call and the
events posted by it. -/
def trigger.handleEvent (t : trigger) (val : Int) : trigger × List CGEventRef :=
  if val ≥ t.threshold ∧ t.active = false then
    ({ t with active := true }, [t.down])
  else if val < t.threshold ∧ t.active = true then
    ({ t with active := false }, [t.up])
  else
    (t, [])

/-- The method `trigger.close`: the released handles, in order. -/
def trigger.close (t : trigger) : List CGEventRef := [t.up, t.down]

/-- A sequence of calls of `trigger.handleEvent`, one per sample. -/
def trigger.run (t : trigger) : List Int → trigger × List CGEventRef
  | [] => (t, [])
  | v :: vs =>
    (((t.handleEvent v).1.run vs).1, (t.handleEvent v).2 ++ ((t.handleEvent v).1.run vs).2)

/-! ## Configuration -/

/-- Value of a string of ASCII decimal digits read after the digits already
accumulated in `acc`; `none` when a character is not a decimal digit. -/
def parseDigits : List Char → Nat → Option Nat
  | [], acc => some acc
  | c :: cs, acc =>
    if c.isDigit then parseDigits cs (acc * 10 + (c.toNat - 48)) else none

/-- The library function `strconv.Atoi`: an optional sign followed by one or
more decimal digits, with a value in the range of `int`; anything else is an
error. -/
def Atoi (s : String) : Except Err Int :=
  match s.toList with
  | [] => .error (.atoi s)
  | c :: cs =>
    match (if c = '-' ∨ c = '+' then cs else c :: cs) with
    | [] => .error (.atoi s)
    | d :: ds =>
      match parseDigits (d :: ds) 0 with
      | none => .error (.atoi s)
      | some n =>
        if isInt (if c = '-' then -(n : Int) else (n : Int)) then
          .ok (if c = '-' then -(n : Int) else (n : Int))
        else .error (.atoi s)

/-- The struct `config`: each Go map is the list of its entries in iteration
order; the array values `[3]int` and `[2]int` are tuples. -/
structure config where
  Axes : List (String × (Int × Int × Int))
  Buttons : List (String × Int)
  Triggers : List (String × (Int × Int))
deriving DecidableEq, Repr

/-- Well-formedness of a `config` as a Go value: within one map the keys are
distinct strings. -/
def config.wf (conf : config) : Prop :=
  (conf.Axes.map Prod.fst).Nodup ∧ (conf.Buttons.map Prod.fst).Nodup ∧
    (conf.Triggers.map Prod.fst).Nodup

instance (conf : config) : Decidable conf.wf := by
  unfold config.wf; exact inferInstance

/-- The function `newConfig`. -/
def newConfig : config := { Axes := [], Buttons := [], Triggers := [] }

/-! ## Go maps keyed by `int` -/

/-- The map index expression `m[k]` on a map of pointers: `none` is the nil
pointer returned for an absent key. -/
def mapGet {α : Type} : List (Int × α) → Int → Option α
  | [], _ => none
  | (k1, v1) :: rest, k => if k1 = k then some v1 else mapGet rest k

/-- The map assignment `m[k] = v`: an entry with key `k` is overwritten,
otherwise a new entry is added. -/
def mapSet {α : Type} : List (Int × α) → Int → α → List (Int × α)
  | [], k, v => [(k, v)]
  | (k1, v1) :: rest, k, v =>
    if k1 = k then (k, v) :: rest else (k1, v1) :: mapSet rest k v

/-! ## Controller -/

/-- The struct `controller`: the three registry tables; `len` of a table is
the length of its list. -/
structure controller where
  Axes : List (Int × axis)
  Buttons : List (Int × button)
  Triggers : List (Int × trigger)
deriving DecidableEq, Repr

/-- One `for k, v := range ...` loop of `newController`, run on the entries
still to visit, the table built so far and the heap.  Each iteration opens
the translator with `mk`, then converts the key with `Atoi`, then stores the
translator under the integer key; the first error ends the function. -/
def rangeOpen {α β : Type} (mk : List CGEventRef → β → Except Err α × List CGEventRef) :
    List (String × β) → List (Int × α) → List CGEventRef →
      Except Err (List (Int × α)) × List CGEventRef
  | [], table, heap => (.ok table, heap)
  | (k, v) :: rest, table, heap =>
    match mk heap v with
    | (.error err, heap1) => (.error err, heap1)
    | (.ok a, heap1) =>
      match Atoi k with
      | .error err => (.error err, heap1)
      | .ok i => rangeOpen mk rest (mapSet table i a) heap1

/-- The function `newController`: the three loops in order, over the heap. -/
def newController (creatable : Nat → Bool → Bool) (heap : List CGEventRef) (conf : config) :
    Except Err controller × List CGEventRef :=
  match rangeOpen (fun h v => openAxis creatable h v.1 v.2.1 v.2.2) conf.Axes [] heap with
  | (.error err, heap1) => (.error err, heap1)
  | (.ok axes, heap1) =>
    match rangeOpen (fun h v => openButton creatable h v) conf.Buttons [] heap1 with
    | (.error err, heap2) => (.error err, heap2)
    | (.ok buttons, heap2) =>
      match rangeOpen (fun h v => openTrigger creatable h v.1 v.2) conf.Triggers [] heap2 with
      | (.error err, heap3) => (.error err, heap3)
      | (.ok triggers, heap3) =>
        (.ok { Axes := axes, Buttons := buttons, Triggers := triggers }, heap3)

/-- The method `controller.close`: the released handles, in order. -/
def controller.close (c : controller) : List CGEventRef :=
  (c.Axes.map (fun e => e.2.close)).flatten ++ (c.Buttons.map (fun e => e.2.close)).flatten ++
    (c.Triggers.map (fun e => e.2.close)).flatten

/-! ## Event loop -/

/-- The constant `sdl.CONTROLLER_AXIS_TRIGGERLEFT`. -/
def CONTROLLER_AXIS_TRIGGERLEFT : Nat := 4

/-- The constant `sdl.CONTROLLER_AXIS_TRIGGERRIGHT`. -/
def CONTROLLER_AXIS_TRIGGERRIGHT : Nat := 5

/-- What `sdl.PollEvent` returns: the two event types the loop handles (their
fields are `uint8`, the axis value `int16`) and every other event type. -/
inductive Event where
  | ControllerButtonEvent (Button : Nat) (State : Nat)
  | ControllerAxisEvent (Axis : Nat) (Value : Int)
  | other
deriving DecidableEq, Repr

/-- How the handling of one polled event ends. -/
inductive Outcome where
  /-- The switch statement completed: the registry after it and the events
  posted. -/
  | done (c : controller) (posted : List CGEventRef)
  /-- A run-time panic (nil pointer dereference), which ends the process: the
  events posted before it. -/
  | panicked (posted : List CGEventRef)
deriving DecidableEq, Repr

/-- The body of the inner loop of `main`: the type switch on one polled
event.  A method called through the nil pointer of an absent map key
dereferences it on its first field access, before any event is posted. -/
def dispatch (c : controller) : Event → Outcome
  | .ControllerButtonEvent b s =>
    match mapGet c.Buttons (b : Int) with
    | none => .panicked []
    | some btn =>
      if s = 0 then
        .done { c with Buttons := mapSet c.Buttons (b : Int) btn.handleUp.1 } btn.handleUp.2
      else
        .done { c with Buttons := mapSet c.Buttons (b : Int) btn.handleDown.1 } btn.handleDown.2
  | .ControllerAxisEvent ax v =>
    if ax = CONTROLLER_AXIS_TRIGGERLEFT ∨ ax = CONTROLLER_AXIS_TRIGGERRIGHT then
      match mapGet c.Triggers (ax : Int) with
      | none => .panicked []
      | some t =>
        .done { c with Triggers := mapSet c.Triggers (ax : Int) (t.handleEvent v).1 }
          (t.handleEvent v).2
    else
      match mapGet c.Axes (ax : Int) with
      | none => .panicked []
      | some a =>
        .done { c with Axes := mapSet c.Axes (ax : Int) (a.handleEvent v).1 }
          (a.handleEvent v).2
  | .other => .done c []

/-! ## Auxiliary definitions for the statements -/

/-- The handles of an axis are four different native objects. -/
def axis.distinctHandles (a : axis) : Prop := [a.nUp, a.nDown, a.pUp, a.pDown].Nodup

/-- Number of posts of the handle `down` minus number of posts of the handle
`up` in a trace of posted events. -/
def downMinusUp (down up : CGEventRef) (posted : List CGEventRef) : Int :=
  (posted.count down : Int) - (posted.count up : Int)

/-- The latch as a number: 1 when set, 0 when clear. -/
def latch (b : Bool) : Int := if b then 1 else 0

/-- The x axis of the left stick of the default configuration, as `openAxis`
builds it on an empty heap. -/
def leftX : axis :=
  { threshold := 0x4000, negative := false, positive := false,
    nUp := ⟨0, 0x7B, false⟩, nDown := ⟨1, 0x7B, true⟩,
    pUp := ⟨2, 0x7C, false⟩, pDown := ⟨3, 0x7C, true⟩ }

/-- The left trigger of the default configuration, as `openTrigger` builds it
on an empty heap. -/
def leftTrigger : trigger :=
  { threshold := 0x4000, active := false, up := ⟨0, 0x0E, false⟩, down := ⟨1, 0x0E, true⟩ }

/-- The calls a history makes on one button: `true` is `handleDown`, `false`
is `handleUp`. -/
def button.run (b : button) : List Bool → button × List CGEventRef
  | [] => (b, [])
  | true :: calls => ((b.handleDown.1.run calls).1, b.handleDown.2 ++ (b.handleDown.1.run calls).2)
  | false :: calls => ((b.handleUp.1.run calls).1, b.handleUp.2 ++ (b.handleUp.1.run calls).2)

/-- The polled event names a control id that has no entry in the registry
table the event loop routes it to: a button id absent from `Buttons`, a
trigger id absent from `Triggers`, any other axis id absent from `Axes`. -/
def unmapped (c : controller) : Event → Prop
  | .ControllerButtonEvent b _ => (b : Int) ∉ c.Buttons.map Prod.fst
  | .ControllerAxisEvent ax _ =>
    if ax = CONTROLLER_AXIS_TRIGGERLEFT ∨ ax = CONTROLLER_AXIS_TRIGGERRIGHT then
      (ax : Int) ∉ c.Triggers.map Prod.fst
    else
      (ax : Int) ∉ c.Axes.map Prod.fst
  | .other => False

instance (c : controller) (e : Event) : Decidable (unmapped c e) := by
  cases e <;> unfold unmapped <;> exact inferInstance

/-- A configuration that binds only the A button, to the Z key. -/
def onlyButtonA : config := { Axes := [], Buttons := [("0", 0x06)], Triggers := [] }

/-- A configuration whose two axis entries have different keys that denote
the same axis id. -/
def sameAxisTwice : config :=
  { Axes := [("1", (0x4000, 0x7E, 0x7D)), ("01", (0x4000, 0x00, 0x07))],
    Buttons := [], Triggers := [] }

/-- The call returned a result and a nil error. -/
def succeeds {α : Type} (r : Except Err α × List CGEventRef) : Prop := ∃ a, r.1 = .ok a

/-- The function `createKey` returns a pair of handles for the value `val`,
whatever the heap it is called on. -/
def createKeyOk (creatable : Nat → Bool → Bool) (val : Int) : Prop :=
  ∀ heap, succeeds (createKey creatable heap val)

/-- The events posted while one polled event is handled. -/
def Outcome.posted : Outcome → List CGEventRef
  | .done _ posted => posted
  | .panicked posted => posted

/-- The inner loop of `main`, `for e := sdl.PollEvent(); e != nil; ...`, on
the events the queue holds, in order: a panic ends it. -/
def pollEvents (c : controller) : List Event → Outcome
  | [] => .done c []
  | e :: es =>
    match dispatch c e with
    | .panicked posted => .panicked posted
    | .done c1 posted =>
      match pollEvents c1 es with
      | .panicked posted2 => .panicked (posted ++ posted2)
      | .done c2 posted2 => .done c2 (posted ++ posted2)

/-- A configuration whose thresholds are not positive: an axis with
threshold 0 and a trigger with threshold -1. -/
def nonPositiveThresholds : config :=
  { Axes := [("0", (0, 0x7B, 0x7C))], Buttons := [], Triggers := [("4", (-1, 0x0E))] }

/-- The native objects of the heap carry their positions as identities, as
every heap grown from the empty one does. -/
def heapWf (heap : List CGEventRef) : Prop := heap.map CGEventRef.id = List.range heap.length

instance (heap : List CGEventRef) : Decidable (heapWf heap) := by
  unfold heapWf; exact inferInstance

/-- The axis `b` is the axis `a` up to its two latches: same threshold, same
four handles. -/
def axis.sameWiring (a b : axis) : Prop :=
  b.threshold = a.threshold ∧ b.nUp = a.nUp ∧ b.nDown = a.nDown ∧ b.pUp = a.pUp ∧
    b.pDown = a.pDown

/-- The trigger `u` is the trigger `t` up to its latch: same threshold, same
two handles. -/
def trigger.sameWiring (t u : trigger) : Prop :=
  u.threshold = t.threshold ∧ u.up = t.up ∧ u.down = t.down

/-- The axis id is one the event loop routes to the `Triggers` table. -/
def isTriggerId (ax : Nat) : Prop :=
  ax = CONTROLLER_AXIS_TRIGGERLEFT ∨ ax = CONTROLLER_AXIS_TRIGGERRIGHT

instance (ax : Nat) : Decidable (isTriggerId ax) := by
  unfold isTriggerId; exact inferInstance

/-- The integer key is one of the two trigger ids. -/
def isTriggerKey (k : Int) : Prop :=
  k = (CONTROLLER_AXIS_TRIGGERLEFT : Int) ∨ k = (CONTROLLER_AXIS_TRIGGERRIGHT : Int)

instance (k : Int) : Decidable (isTriggerKey k) := by
  unfold isTriggerKey; exact inferInstance

/-- A registry with an axis stored under the trigger id 4 next to the
trigger stored there, and the left stick under id 0. -/
def shadowedAxis : controller :=
  { Axes := [(0, leftX), (4, leftX)], Buttons := [(0, ⟨⟨4, 6, false⟩, ⟨5, 6, true⟩⟩)],
    Triggers := [(4, leftTrigger)] }

/-- The y axis of the left stick of the default configuration, as
`newController` builds it after `leftX`. -/
def leftY : axis :=
  { threshold := 0x4000, negative := false, positive := false,
    nUp := ⟨4, 0x7E, false⟩, nDown := ⟨5, 0x7E, true⟩,
    pUp := ⟨6, 0x7D, false⟩, pDown := ⟨7, 0x7D, true⟩ }

/-- Two entries of each table of the default configuration: the two axes of
the left stick, the A and B buttons, the two triggers. -/
def twoOfEach : config :=
  { Axes := [("0", (0x4000, 0x7B, 0x7C)), ("1", (0x4000, 0x7E, 0x7D))],
    Buttons := [("0", 0x06), ("1", 0x07)],
    Triggers := [("4", (0x4000, 0x0E)), ("5", (0x4000, 0x0F))] }

/-- The registry `newController` builds from `twoOfEach` on an empty heap. -/
def twoOfEachRegistry : controller :=
  { Axes := [(0, leftX), (1, leftY)],
    Buttons := [(0, ⟨⟨8, 0x06, false⟩, ⟨9, 0x06, true⟩⟩),
                (1, ⟨⟨10, 0x07, false⟩, ⟨11, 0x07, true⟩⟩)],
    Triggers := [(4, ⟨0x4000, false, ⟨12, 0x0E, false⟩, ⟨13, 0x0E, true⟩⟩),
                 (5, ⟨0x4000, false, ⟨14, 0x0F, false⟩, ⟨15, 0x0F, true⟩⟩)] }

/-- The registry `newController` builds from `nonPositiveThresholds` on an
empty heap. -/
def nonPositiveRegistry : controller :=
  { Axes := [(0, ⟨0, false, false, ⟨0, 0x7B, false⟩, ⟨1, 0x7B, true⟩, ⟨2, 0x7C, false⟩,
      ⟨3, 0x7C, true⟩⟩)],
    Buttons := [],
    Triggers := [(4, ⟨-1, false, ⟨4, 0x0E, false⟩, ⟨5, 0x0E, true⟩⟩)] }

/-- The value is a key code: it lies in the range 0..65535 of `CGKeyCode`. -/
def isKeyCode (n : Int) : Prop := 0 ≤ n ∧ n < 65536

instance (n : Int) : Decidable (isKeyCode n) := by
  unfold isKeyCode; exact inferInstance

/-- The axis has threshold `T`, its negative handles are the press and the
release of key `n`, its positive handles the press and the release of key
`p`, and as its first sample a value `>= T` posts the press of `p` and a
value `<= -T` posts the press of `n`, the minus being that of Go `int` and,
for every `T` but the smallest `int`, the negation. -/
def axis.emits (a : axis) (T n p : Int) : Prop :=
  a.threshold = T ∧
    ((a.nDown.keyCode : Int) = n ∧ a.nDown.keyDown = true) ∧
    ((a.nUp.keyCode : Int) = n ∧ a.nUp.keyDown = false) ∧
    ((a.pDown.keyCode : Int) = p ∧ a.pDown.keyDown = true) ∧
    ((a.pUp.keyCode : Int) = p ∧ a.pUp.keyDown = false) ∧
    (∀ v : Int, v ≥ T → a.pDown ∈ (a.handleEvent v).2) ∧
    (∀ v : Int, v ≤ negInt T → a.nDown ∈ (a.handleEvent v).2) ∧
    (minInt < T → T ≤ maxInt → ∀ v : Int, v ≤ -T → a.nDown ∈ (a.handleEvent v).2)

/-- The trigger has threshold `T`, its handles are the press and the release
of key `k`, and as its first sample a value `>= T` posts exactly the press. -/
def trigger.emits (t : trigger) (T k : Int) : Prop :=
  t.threshold = T ∧
    ((t.down.keyCode : Int) = k ∧ t.down.keyDown = true) ∧
    ((t.up.keyCode : Int) = k ∧ t.up.keyDown = false) ∧
    (∀ v : Int, v ≥ T → (t.handleEvent v).2 = [t.down])

/-- The method `handleDown` of the button posts exactly a press of key `k`
and `handleUp` exactly a release of key `k`. -/
def button.emits (b : button) (k : Int) : Prop :=
  (b.handleDown.2 = [b.down] ∧ (b.down.keyCode : Int) = k ∧ b.down.keyDown = true) ∧
    (b.handleUp.2 = [b.up] ∧ (b.up.keyCode : Int) = k ∧ b.up.keyDown = false)

/-! ## Construction lemmas -/

theorem createKey_ok {creatable : Nat → Bool → Bool} {heap heap1 : List CGEventRef} {val : Int}
    {up down : CGEventRef} (h : createKey creatable heap val = (.ok (up, down), heap1)) :
    up = ⟨heap.length, CGKeyCode val, false⟩ ∧ down = ⟨heap.length + 1, CGKeyCode val, true⟩ ∧
      heap1 = heap ++ [up, down] ∧ creatable (CGKeyCode val) false = true ∧
      creatable (CGKeyCode val) true = true := by
  unfold createKey CGEventCreateKeyboardEvent at h
  cases h1 : creatable (CGKeyCode val) false <;> cases h2 : creatable (CGKeyCode val) true <;>
    simp [h1, h2] at h
  obtain ⟨⟨rfl, rfl⟩, rfl⟩ := h
  simp

theorem openAxis_ok {creatable : Nat → Bool → Bool} {heap heap1 : List CGEventRef}
    {T neg pos : Int} {a : axis} (h : openAxis creatable heap T neg pos = (.ok a, heap1)) :
    a = { threshold := T, negative := false, positive := false,
          nUp := ⟨heap.length, CGKeyCode neg, false⟩,
          nDown := ⟨heap.length + 1, CGKeyCode neg, true⟩,
          pUp := ⟨heap.length + 2, CGKeyCode pos, false⟩,
          pDown := ⟨heap.length + 3, CGKeyCode pos, true⟩ } ∧
      heap1 = heap ++ [a.nUp, a.nDown, a.pUp, a.pDown] := by
  unfold openAxis at h
  rcases h1 : createKey creatable heap neg with ⟨r1, hp1⟩
  rw [h1] at h
  rcases r1 with e1 | ⟨nUp, nDown⟩
  · simp at h
  · dsimp only at h
    rcases h2 : createKey creatable hp1 pos with ⟨r2, hp2⟩
    rw [h2] at h
    rcases r2 with e2 | ⟨pUp, pDown⟩
    · simp at h
    · simp only [Prod.mk.injEq, Except.ok.injEq] at h
      obtain ⟨rfl, rfl⟩ := h
      obtain ⟨rfl, rfl, rfl, -, -⟩ := createKey_ok h1
      obtain ⟨rfl, rfl, rfl, -, -⟩ := createKey_ok h2
      simp [Nat.add_assoc]

theorem openAxis_distinctHandles {creatable : Nat → Bool → Bool} {heap heap1 : List CGEventRef}
    {T neg pos : Int} {a : axis} (h : openAxis creatable heap T neg pos = (.ok a, heap1)) :
    a.distinctHandles := by
  obtain ⟨rfl, -⟩ := openAxis_ok h
  simp [axis.distinctHandles]

theorem openTrigger_ok {creatable : Nat → Bool → Bool} {heap heap1 : List CGEventRef}
    {T val : Int} {t : trigger} (h : openTrigger creatable heap T val = (.ok t, heap1)) :
    t = { threshold := T, active := false, up := ⟨heap.length, CGKeyCode val, false⟩,
          down := ⟨heap.length + 1, CGKeyCode val, true⟩ } ∧
      heap1 = heap ++ [t.up, t.down] := by
  unfold openTrigger at h
  rcases h1 : createKey creatable heap val with ⟨r1, hp1⟩
  rw [h1] at h
  rcases r1 with e1 | ⟨up, down⟩
  · simp at h
  · simp only [Prod.mk.injEq, Except.ok.injEq] at h
    obtain ⟨rfl, rfl⟩ := h
    obtain ⟨rfl, rfl, rfl, -, -⟩ := createKey_ok h1
    simp

theorem negInt_of_pos {T : Int} (h0 : 0 < T) (h1 : T ≤ maxInt) : negInt T = -T := by
  unfold negInt wrap64 minInt
  unfold maxInt at h1
  omega

/-! ## Translator lemmas -/

theorem downMinusUp_append (down up : CGEventRef) (xs ys : List CGEventRef) :
    downMinusUp down up (xs ++ ys) = downMinusUp down up xs + downMinusUp down up ys := by
  simp only [downMinusUp, List.count_append, Nat.cast_add]
  ring

theorem latch_cases (b : Bool) : latch b = 0 ∨ latch b = 1 := by
  cases b <;> simp [latch]

theorem axis_handleEvent_frame (a : axis) (v : Int) :
    (a.handleEvent v).1.threshold = a.threshold ∧ (a.handleEvent v).1.nUp = a.nUp ∧
      (a.handleEvent v).1.nDown = a.nDown ∧ (a.handleEvent v).1.pUp = a.pUp ∧
      (a.handleEvent v).1.pDown = a.pDown := by
  simp only [axis.handleEvent, axis.handleNegative, axis.handlePositive]
  split_ifs <;> simp

theorem axis_handleEvent_negative (a : axis) (v : Int) :
    (a.handleEvent v).1.negative = decide (v ≤ negInt a.threshold) := by
  simp only [axis.handleEvent, axis.handleNegative, axis.handlePositive]
  cases hn : a.negative <;> split_ifs <;> simp_all

theorem axis_handleEvent_positive (a : axis) (v : Int) :
    (a.handleEvent v).1.positive = decide (v ≥ a.threshold) := by
  simp only [axis.handleEvent, axis.handleNegative, axis.handlePositive]
  cases hp : a.positive <;> split_ifs <;> simp_all

theorem axis_handleEvent_balance (a : axis) (v : Int) (hd : a.distinctHandles) :
    downMinusUp a.nDown a.nUp (a.handleEvent v).2 =
        latch (a.handleEvent v).1.negative - latch a.negative ∧
      downMinusUp a.pDown a.pUp (a.handleEvent v).2 =
        latch (a.handleEvent v).1.positive - latch a.positive := by
  simp only [axis.distinctHandles, List.nodup_cons, List.mem_cons, List.mem_singleton,
    not_or, List.not_mem_nil, not_false_eq_true, List.nodup_nil, and_true] at hd
  obtain ⟨⟨h1, h2, h3⟩, ⟨h4, h5⟩, h6⟩ := hd
  simp only [axis.handleEvent, axis.handleNegative, axis.handlePositive, downMinusUp]
  cases hn : a.negative <;> cases hp : a.positive <;> split_ifs <;>
    simp_all [latch, List.count_cons, Ne.symm h1, Ne.symm h2, Ne.symm h3, Ne.symm h4,
      Ne.symm h5, Ne.symm h6]

theorem axis_run_frame (a : axis) (vs : List Int) :
    (a.run vs).1.threshold = a.threshold ∧ (a.run vs).1.nUp = a.nUp ∧
      (a.run vs).1.nDown = a.nDown ∧ (a.run vs).1.pUp = a.pUp ∧
      (a.run vs).1.pDown = a.pDown := by
  induction vs generalizing a with
  | nil => simp [axis.run]
  | cons v vs ih =>
    obtain ⟨e1, e2, e3, e4, e5⟩ := ih (a.handleEvent v).1
    obtain ⟨f1, f2, f3, f4, f5⟩ := axis_handleEvent_frame a v
    simp only [axis.run]
    exact ⟨e1.trans f1, e2.trans f2, e3.trans f3, e4.trans f4, e5.trans f5⟩

theorem axis_run_balance (a : axis) (hd : a.distinctHandles) (vs : List Int) :
    downMinusUp a.nDown a.nUp (a.run vs).2 = latch (a.run vs).1.negative - latch a.negative ∧
      downMinusUp a.pDown a.pUp (a.run vs).2 =
        latch (a.run vs).1.positive - latch a.positive := by
  induction vs generalizing a with
  | nil => simp [axis.run, downMinusUp]
  | cons v vs ih =>
    obtain ⟨f1, f2, f3, f4, f5⟩ := axis_handleEvent_frame a v
    have hd1 : (a.handleEvent v).1.distinctHandles := by
      simpa only [axis.distinctHandles, f2, f3, f4, f5] using hd
    obtain ⟨i1, i2⟩ := ih (a.handleEvent v).1 hd1
    obtain ⟨b1, b2⟩ := axis_handleEvent_balance a v hd
    rw [f2, f3] at i1
    rw [f4, f5] at i2
    simp only [axis.run, downMinusUp_append]
    constructor
    · rw [i1, b1]; ring
    · rw [i2, b2]; ring

theorem axis_run_append (a : axis) (xs ys : List Int) :
    a.run (xs ++ ys) = (((a.run xs).1.run ys).1, (a.run xs).2 ++ ((a.run xs).1.run ys).2) := by
  induction xs generalizing a with
  | nil => simp [axis.run]
  | cons v vs ih => simp [axis.run, ih, List.append_assoc]

theorem trigger_handleEvent_frame (t : trigger) (v : Int) :
    (t.handleEvent v).1.threshold = t.threshold ∧ (t.handleEvent v).1.up = t.up ∧
      (t.handleEvent v).1.down = t.down := by
  simp only [trigger.handleEvent]
  split_ifs <;> simp

theorem trigger_handleEvent_active (t : trigger) (v : Int) :
    (t.handleEvent v).1.active = decide (v ≥ t.threshold) := by
  simp only [trigger.handleEvent]
  cases ha : t.active <;> split_ifs <;> simp_all

theorem trigger_handleEvent_balance (t : trigger) (v : Int) (hd : t.down ≠ t.up) :
    downMinusUp t.down t.up (t.handleEvent v).2 =
      latch (t.handleEvent v).1.active - latch t.active := by
  simp only [trigger.handleEvent, downMinusUp]
  cases ha : t.active <;> split_ifs <;> simp_all [latch, List.count_cons, Ne.symm hd]

theorem trigger_run_balance (t : trigger) (hd : t.down ≠ t.up) (vs : List Int) :
    downMinusUp t.down t.up (t.run vs).2 = latch (t.run vs).1.active - latch t.active := by
  induction vs generalizing t with
  | nil => simp [trigger.run, downMinusUp]
  | cons v vs ih =>
    obtain ⟨-, f2, f3⟩ := trigger_handleEvent_frame t v
    have i1 := ih (t.handleEvent v).1 (by rw [f2, f3]; exact hd)
    rw [f2, f3] at i1
    simp only [trigger.run, downMinusUp_append]
    rw [i1, trigger_handleEvent_balance t v hd]; ring

theorem trigger_run_append (t : trigger) (xs ys : List Int) :
    t.run (xs ++ ys) = (((t.run xs).1.run ys).1, (t.run xs).2 ++ ((t.run xs).1.run ys).2) := by
  induction xs generalizing t with
  | nil => simp [trigger.run]
  | cons v vs ih => simp [trigger.run, ih, List.append_assoc]

theorem axis_handleEvent_eq (a : axis) (v : Int) :
    a.handleEvent v =
      ({ a with negative := decide (v ≤ negInt a.threshold),
                positive := decide (v ≥ a.threshold) },
       (if a.negative = decide (v ≤ negInt a.threshold) then []
        else if a.negative then [a.nUp] else [a.nDown]) ++
       (if a.positive = decide (v ≥ a.threshold) then []
        else if a.positive then [a.pUp] else [a.pDown])) := by
  rcases a with ⟨T, n, p, nUp, nDown, pUp, pDown⟩
  simp only [axis.handleEvent, axis.handleNegative, axis.handlePositive, gt_iff_lt, ge_iff_le]
  by_cases h1 : v ≤ negInt T <;> by_cases h2 : T ≤ v <;> cases n <;> cases p <;>
    simp [h1, h2, -not_le, lt_iff_not_le]

theorem trigger_handleEvent_eq (t : trigger) (v : Int) :
    t.handleEvent v =
      ({ t with active := decide (v ≥ t.threshold) },
       if t.active = decide (v ≥ t.threshold) then []
       else if t.active then [t.up] else [t.down]) := by
  rcases t with ⟨T, act, up, down⟩
  simp only [trigger.handleEvent, gt_iff_lt, ge_iff_le]
  by_cases h2 : T ≤ v <;> cases act <;> simp [h2, -not_le, lt_iff_not_le]

/-! ## Balance of presses and releases -/

/-- C1: for an axis freshly opened by `openAxis` with any threshold (so for
every `T > 0`) and any sequence of samples, after every prefix of the
sequence the events posted so far are an initial part of all the events
posted, and among them the presses of the negative key minus its releases
number 0 or 1, and likewise the presses of the positive key minus its
releases. -/
theorem axis_presses_minus_releases (creatable : Nat → Bool → Bool)
    (heap heap1 : List CGEventRef) (T neg pos : Int) (a : axis)
    (hopen : openAxis creatable heap T neg pos = (.ok a, heap1))
    (samples pre : List Int) (hpre : pre <+: samples) :
    (a.run pre).2 <+: (a.run samples).2 ∧
      (downMinusUp a.nDown a.nUp (a.run pre).2 = 0 ∨
        downMinusUp a.nDown a.nUp (a.run pre).2 = 1) ∧
      (downMinusUp a.pDown a.pUp (a.run pre).2 = 0 ∨
        downMinusUp a.pDown a.pUp (a.run pre).2 = 1) := by
  obtain ⟨rest, rfl⟩ := hpre
  have hd := openAxis_distinctHandles hopen
  obtain ⟨b1, b2⟩ := axis_run_balance a hd pre
  have hn : a.negative = false := by rw [(openAxis_ok hopen).1]
  have hp : a.positive = false := by rw [(openAxis_ok hopen).1]
  rw [hn] at b1
  rw [hp] at b2
  refine ⟨?_, ?_, ?_⟩
  · rw [axis_run_append]
    exact List.prefix_append _ _
  · rw [b1]
    rcases latch_cases (a.run pre).1.negative with h | h <;> simp [h, latch]
  · rw [b2]
    rcases latch_cases (a.run pre).1.positive with h | h <;> simp [h, latch]

/-- Witness of C1: the left stick of the default configuration, sampled with
the sequence of the end-to-end scenario, after its first two samples. -/
theorem axis_presses_minus_releases_witness :
    openAxis (fun _ _ => true) [] 0x4000 0x7B 0x7C =
        (.ok leftX, [leftX.nUp, leftX.nDown, leftX.pUp, leftX.pDown]) ∧
      [0, 0x5000] <+: [0, 0x5000, 0x5000, 0, -0x5000, 0] ∧
      ((leftX.run [0, 0x5000]).2 <+: (leftX.run [0, 0x5000, 0x5000, 0, -0x5000, 0]).2 ∧
        (downMinusUp leftX.nDown leftX.nUp (leftX.run [0, 0x5000]).2 = 0 ∨
          downMinusUp leftX.nDown leftX.nUp (leftX.run [0, 0x5000]).2 = 1) ∧
        (downMinusUp leftX.pDown leftX.pUp (leftX.run [0, 0x5000]).2 = 0 ∨
          downMinusUp leftX.pDown leftX.pUp (leftX.run [0, 0x5000]).2 = 1)) :=
  ⟨by decide, ⟨[0x5000, 0, -0x5000, 0], rfl⟩,
    axis_presses_minus_releases (fun _ _ => true) []
      [leftX.nUp, leftX.nDown, leftX.pUp, leftX.pDown] 0x4000 0x7B 0x7C leftX (by decide)
      [0, 0x5000, 0x5000, 0, -0x5000, 0] [0, 0x5000] ⟨[0x5000, 0, -0x5000, 0], rfl⟩⟩

/-- C2: for a trigger freshly opened by `openTrigger` with any threshold and
any sequence of samples, after every prefix of the sequence the events posted
so far are an initial part of all the events posted, and among them the
presses minus the releases number 0 or 1. -/
theorem trigger_presses_minus_releases (creatable : Nat → Bool → Bool)
    (heap heap1 : List CGEventRef) (T val : Int) (t : trigger)
    (hopen : openTrigger creatable heap T val = (.ok t, heap1))
    (samples pre : List Int) (hpre : pre <+: samples) :
    (t.run pre).2 <+: (t.run samples).2 ∧
      (downMinusUp t.down t.up (t.run pre).2 = 0 ∨
        downMinusUp t.down t.up (t.run pre).2 = 1) := by
  obtain ⟨rest, rfl⟩ := hpre
  have hd : t.down ≠ t.up := by rw [(openTrigger_ok hopen).1]; simp
  have b1 := trigger_run_balance t hd pre
  have hn : t.active = false := by rw [(openTrigger_ok hopen).1]
  rw [hn] at b1
  refine ⟨?_, ?_⟩
  · rw [trigger_run_append]
    exact List.prefix_append _ _
  · rw [b1]
    rcases latch_cases (t.run pre).1.active with h | h <;> simp [h, latch]

/-- Witness of C2: the left trigger of the default configuration, pressed,
held and released, after its first two samples. -/
theorem trigger_presses_minus_releases_witness :
    openTrigger (fun _ _ => true) [] 0x4000 0x0E =
        (.ok leftTrigger, [leftTrigger.up, leftTrigger.down]) ∧
      [0, 0x5000] <+: [0, 0x5000, 0x5000, 0] ∧
      ((leftTrigger.run [0, 0x5000]).2 <+: (leftTrigger.run [0, 0x5000, 0x5000, 0]).2 ∧
        (downMinusUp leftTrigger.down leftTrigger.up (leftTrigger.run [0, 0x5000]).2 = 0 ∨
          downMinusUp leftTrigger.down leftTrigger.up (leftTrigger.run [0, 0x5000]).2 = 1)) :=
  ⟨by decide, ⟨[0x5000, 0], rfl⟩,
    trigger_presses_minus_releases (fun _ _ => true) []
      [leftTrigger.up, leftTrigger.down] 0x4000 0x0E leftTrigger (by decide)
      [0, 0x5000, 0x5000, 0] [0, 0x5000] ⟨[0x5000, 0], rfl⟩⟩

/-! ## Idempotence -/

/-- C3: for every axis (any threshold, any latch values) and every sample
`v`, a second call of `handleEvent` with `v` right after a first one posts no
event and returns the axis exactly as the first call left it. -/
theorem axis_second_call_silent (a : axis) (v : Int) :
    (a.handleEvent v).1.handleEvent v = ((a.handleEvent v).1, []) := by
  rw [axis_handleEvent_eq (a.handleEvent v).1 v]
  rw [axis_handleEvent_eq a v]
  simp

/-- C4: for every trigger (any threshold, any latch value) and every sample
`v`, a second call of `handleEvent` with `v` right after a first one posts no
event and returns the trigger exactly as the first call left it. -/
theorem trigger_second_call_silent (t : trigger) (v : Int) :
    (t.handleEvent v).1.handleEvent v = ((t.handleEvent v).1, []) := by
  rw [trigger_handleEvent_eq (t.handleEvent v).1 v]
  rw [trigger_handleEvent_eq t v]
  simp

/-! ## Scenarios and boundaries -/

/-- C5: for every threshold `T > 0` (a Go `int`) and every magnitude
`m ≥ T`, the samples `[0, m, m, 0, -m, 0]` fed to an axis freshly opened with
threshold `T` post exactly positive-down, positive-up, negative-down,
negative-up, in that order. -/
theorem axis_end_to_end (creatable : Nat → Bool → Bool) (heap heap1 : List CGEventRef)
    (T neg pos : Int) (a : axis)
    (hopen : openAxis creatable heap T neg pos = (.ok a, heap1))
    (hT : 0 < T) (hmax : T ≤ maxInt) (m : Int) (hm : T ≤ m) :
    (a.run [0, m, m, 0, -m, 0]).2 = [a.pDown, a.pUp, a.nDown, a.nUp] := by
  obtain ⟨rfl, -⟩ := openAxis_ok hopen
  have h1 : ¬ (0 ≤ -T) := by omega
  have h2 : ¬ (T ≤ 0) := by omega
  have h3 : ¬ (m ≤ -T) := by omega
  have h5 : -m ≤ -T := by omega
  have h6 : ¬ (T ≤ -m) := by omega
  simp only [axis.run, axis_handleEvent_eq, negInt_of_pos hT hmax, ge_iff_le, h1, h2, h3, hm,
    h5, h6]
  simp

/-- Witness of C5: the scenario of the specification, `T = 0x4000` and
`m = 0x5000`, on the left stick of the default configuration. -/
theorem axis_end_to_end_witness :
    openAxis (fun _ _ => true) [] 0x4000 0x7B 0x7C =
        (.ok leftX, [leftX.nUp, leftX.nDown, leftX.pUp, leftX.pDown]) ∧
      (0 : Int) < 0x4000 ∧ (0x4000 : Int) ≤ maxInt ∧ (0x4000 : Int) ≤ 0x5000 ∧
      (leftX.run [0, 0x5000, 0x5000, 0, -0x5000, 0]).2 =
        [leftX.pDown, leftX.pUp, leftX.nDown, leftX.nUp] :=
  ⟨by decide, by decide, by decide, by decide,
    axis_end_to_end (fun _ _ => true) [] [leftX.nUp, leftX.nDown, leftX.pUp, leftX.pDown]
      0x4000 0x7B 0x7C leftX (by decide) (by decide) (by decide) 0x5000 (by decide)⟩

/-- C6: for every threshold `T > 0` (a Go `int`) and an axis freshly opened
with threshold `T`: the single sample `T` posts exactly positive-down; the
single sample `T - 1` posts nothing, so no positive-down; the single sample
`-T` posts exactly negative-down; the single sample `-(T - 1)` posts nothing,
so no negative-down. -/
theorem axis_boundary (creatable : Nat → Bool → Bool) (heap heap1 : List CGEventRef)
    (T neg pos : Int) (a : axis)
    (hopen : openAxis creatable heap T neg pos = (.ok a, heap1))
    (hT : 0 < T) (hmax : T ≤ maxInt) :
    (a.handleEvent T).2 = [a.pDown] ∧
      ((a.handleEvent (T - 1)).2 = [] ∧ a.pDown ∉ (a.handleEvent (T - 1)).2) ∧
      (a.handleEvent (-T)).2 = [a.nDown] ∧
      ((a.handleEvent (-(T - 1))).2 = [] ∧ a.nDown ∉ (a.handleEvent (-(T - 1))).2) := by
  obtain ⟨rfl, -⟩ := openAxis_ok hopen
  have h1 : ¬ (T ≤ -T) := by omega
  have h2 : ¬ (T - 1 ≤ -T) := by omega
  have h3 : ¬ (T ≤ T - 1) := by omega
  have h4 : ¬ (T ≤ -T) := by omega
  have h5 : ¬ (-(T - 1) ≤ -T) := by omega
  have h6 : ¬ (T ≤ -(T - 1)) := by omega
  simp only [axis_handleEvent_eq, negInt_of_pos hT hmax, ge_iff_le, h1, h2, h3, h4, h5, h6,
    le_refl]
  simp

/-- Witness of C6: `T = 0x4000` with the samples `0x4000`, `0x3FFF`,
`-0x4000` and `-0x3FFF`, on the left stick of the default configuration. -/
theorem axis_boundary_witness :
    openAxis (fun _ _ => true) [] 0x4000 0x7B 0x7C =
        (.ok leftX, [leftX.nUp, leftX.nDown, leftX.pUp, leftX.pDown]) ∧
      (0 : Int) < 0x4000 ∧ (0x4000 : Int) ≤ maxInt ∧
      ((leftX.handleEvent 0x4000).2 = [leftX.pDown] ∧
        ((leftX.handleEvent (0x4000 - 1)).2 = [] ∧
          leftX.pDown ∉ (leftX.handleEvent (0x4000 - 1)).2) ∧
        (leftX.handleEvent (-0x4000)).2 = [leftX.nDown] ∧
        ((leftX.handleEvent (-(0x4000 - 1))).2 = [] ∧
          leftX.nDown ∉ (leftX.handleEvent (-(0x4000 - 1))).2)) :=
  ⟨by decide, by decide, by decide,
    axis_boundary (fun _ _ => true) [] [leftX.nUp, leftX.nDown, leftX.pUp, leftX.pDown]
      0x4000 0x7B 0x7C leftX (by decide) (by decide) (by decide)⟩

/-- C7: for every threshold `T` and every pair of handles, a trigger with
threshold `T`: when inactive, the sample `T` posts exactly one press and sets
`active`, and the sample `T - 1` posts nothing and changes nothing; when
active, the sample `T - 1` posts exactly one release and clears `active`, and
the sample `T` posts nothing and changes nothing. -/
theorem trigger_boundary (T : Int) (up down : CGEventRef) :
    trigger.handleEvent ⟨T, false, up, down⟩ T = (⟨T, true, up, down⟩, [down]) ∧
      trigger.handleEvent ⟨T, false, up, down⟩ (T - 1) = (⟨T, false, up, down⟩, []) ∧
      trigger.handleEvent ⟨T, true, up, down⟩ (T - 1) = (⟨T, false, up, down⟩, [up]) ∧
      trigger.handleEvent ⟨T, true, up, down⟩ T = (⟨T, true, up, down⟩, []) := by
  have h3 : ¬ (T ≤ T - 1) := by omega
  simp only [trigger_handleEvent_eq, ge_iff_le, h3, le_refl]
  simp

/-- C8: for every button and every history of earlier `handleUp` and
`handleDown` calls, the button after the history is the button before it, a
call of `handleDown` then posts exactly one event, the press handle of the
button, a call of `handleUp` posts exactly one event, the release handle, and
neither call changes the button. -/
theorem button_no_latch (b : button) (history : List Bool) :
    (b.run history).1 = b ∧
      (b.run history).1.handleDown = (b, [b.down]) ∧
      (b.run history).1.handleUp = (b, [b.up]) ∧
      (b.run history).2.length = history.length := by
  have key : ∀ calls : List Bool, (b.run calls).1 = b ∧ (b.run calls).2.length = calls.length := by
    intro calls
    induction calls with
    | nil => simp [button.run]
    | cons c calls ih =>
      cases c <;> simp [button.run, button.handleUp, button.handleDown, ih.1, ih.2]
  rw [(key history).1]
  exact ⟨rfl, rfl, rfl, (key history).2⟩

/-! ## Dispatch of unmapped control ids -/

theorem mapGet_eq_none {α : Type} (m : List (Int × α)) (k : Int) (h : k ∉ m.map Prod.fst) :
    mapGet m k = none := by
  induction m with
  | nil => rfl
  | cons e rest ih =>
    obtain ⟨k1, v1⟩ := e
    simp only [List.map_cons, List.mem_cons, not_or] at h
    simp only [mapGet, if_neg (Ne.symm h.1)]
    exact ih h.2

/-- C9, the claim as stated fails: in the registry built from a configuration
that binds only button 0, a press of button 1 has no entry in `Buttons`, and
its dispatch does not complete: it panics, having posted nothing. -/
theorem dispatch_unmapped_button_does_not_complete :
    ∃ c heap1, newController (fun _ _ => true) [] onlyButtonA = (.ok c, heap1) ∧
      unmapped c (.ControllerButtonEvent 1 1) ∧
      dispatch c (.ControllerButtonEvent 1 1) = .panicked [] ∧
      ¬ ∃ c1 posted, dispatch c (.ControllerButtonEvent 1 1) = .done c1 posted := by
  refine ⟨⟨[], [(0, ⟨⟨0, 6, false⟩, ⟨1, 6, true⟩⟩)], []⟩, [⟨0, 6, false⟩, ⟨1, 6, true⟩],
    by decide, by decide, by decide, ?_⟩
  rintro ⟨c1, posted, h⟩
  have hp : dispatch ⟨[], [(0, ⟨⟨0, 6, false⟩, ⟨1, 6, true⟩⟩)], []⟩ (.ControllerButtonEvent 1 1) =
      .panicked [] := by decide
  rw [hp] at h
  exact Outcome.noConfusion h

/-- C9 as amended: for every registry and every polled event whose control id
has no entry in the registry table it is routed to, the dispatch posts no
event and ends in the nil-pointer panic that terminates the process. -/
theorem dispatch_unmapped_panics (c : controller) (e : Event) (h : unmapped c e) :
    dispatch c e = .panicked [] := by
  cases e with
  | ControllerButtonEvent b st =>
    simp only [unmapped] at h
    simp only [dispatch, mapGet_eq_none _ _ h]
  | ControllerAxisEvent ax v =>
    simp only [unmapped] at h
    simp only [dispatch]
    split_ifs at h with hr
    · rw [if_pos hr, mapGet_eq_none _ _ h]
    · rw [if_neg hr, mapGet_eq_none _ _ h]
  | other => exact absurd h (by simp [unmapped])

/-- Witness of the amended C9: a registry that holds only axis 0 receives a
sample of axis 1. -/
theorem dispatch_unmapped_panics_witness :
    unmapped ⟨[(0, leftX)], [], []⟩ (.ControllerAxisEvent 1 0x5000) ∧
      dispatch ⟨[(0, leftX)], [], []⟩ (.ControllerAxisEvent 1 0x5000) = .panicked [] :=
  ⟨by decide, dispatch_unmapped_panics ⟨[(0, leftX)], [], []⟩ (.ControllerAxisEvent 1 0x5000)
    (by decide)⟩

/-! ## One translator per mapping entry -/

theorem mapSet_keys_of_not_mem {α : Type} (m : List (Int × α)) (k : Int) (v : α)
    (h : k ∉ m.map Prod.fst) : (mapSet m k v).map Prod.fst = m.map Prod.fst ++ [k] := by
  induction m with
  | nil => rfl
  | cons e rest ih =>
    obtain ⟨k1, v1⟩ := e
    simp only [List.map_cons, List.mem_cons, not_or] at h
    simp only [mapSet, if_neg (Ne.symm h.1), List.map_cons, List.cons_append, ih h.2]

theorem rangeOpen_length {α β : Type}
    (mk : List CGEventRef → β → Except Err α × List CGEventRef)
    (entries : List (String × β)) (table t : List (Int × α)) (heap heap1 : List CGEventRef)
    (h : rangeOpen mk entries table heap = (.ok t, heap1))
    (hnd : (table.map (fun e => (Except.ok e.1 : Except Err Int)) ++
      entries.map (fun e => Atoi e.1)).Nodup) :
    t.length = table.length + entries.length := by
  induction entries generalizing table heap with
  | nil =>
    simp only [rangeOpen, Prod.mk.injEq, Except.ok.injEq] at h
    simp [h.1]
  | cons e rest ih =>
    obtain ⟨k, v⟩ := e
    simp only [rangeOpen] at h
    rcases hm : mk heap v with ⟨r, hp⟩
    rw [hm] at h
    rcases r with err | a
    · simp at h
    · dsimp only at h
      cases hk : Atoi k with
      | error err => rw [hk] at h; simp at h
      | ok i =>
        rw [hk] at h
        dsimp only at h
        simp only [List.map_cons, hk] at hnd
        have hmid := List.nodup_middle.mp hnd
        have hi : i ∉ table.map Prod.fst := by
          intro hmem
          apply (List.nodup_cons.mp hmid).1
          apply List.mem_append_left
          obtain ⟨x, hx, rfl⟩ := List.mem_map.mp hmem
          exact List.mem_map.mpr ⟨x, hx, rfl⟩
        have hkeys := mapSet_keys_of_not_mem table i a hi
        have hmap : (mapSet table i a).map (fun e => (Except.ok e.1 : Except Err Int)) =
            table.map (fun e => (Except.ok e.1 : Except Err Int)) ++ [Except.ok i] := by
          have := congrArg (List.map (fun j : Int => (Except.ok j : Except Err Int))) hkeys
          simpa [List.map_map, Function.comp_def] using this
        have hlen : (mapSet table i a).length = table.length + 1 := by
          have := congrArg List.length hkeys
          simpa using this
        have hnd1 : ((mapSet table i a).map (fun e => (Except.ok e.1 : Except Err Int)) ++
            rest.map (fun e => Atoi e.1)).Nodup := by
          rw [hmap, List.append_assoc]
          exact hnd
        rw [ih (mapSet table i a) hp h hnd1, hlen, List.length_cons]
        omega

theorem newController_tables {creatable : Nat → Bool → Bool} {heap heap1 : List CGEventRef}
    {conf : config} {c : controller}
    (hnew : newController creatable heap conf = (.ok c, heap1)) :
    ∃ hp1 hp2,
      rangeOpen (fun h v => openAxis creatable h v.1 v.2.1 v.2.2) conf.Axes [] heap =
        (.ok c.Axes, hp1) ∧
      rangeOpen (fun h v => openButton creatable h v) conf.Buttons [] hp1 =
        (.ok c.Buttons, hp2) ∧
      rangeOpen (fun h v => openTrigger creatable h v.1 v.2) conf.Triggers [] hp2 =
        (.ok c.Triggers, heap1) := by
  unfold newController at hnew
  rcases h1 : rangeOpen (fun h v => openAxis creatable h v.1 v.2.1 v.2.2) conf.Axes [] heap
    with ⟨r1, hp1⟩
  rw [h1] at hnew
  rcases r1 with e1 | axes
  · simp at hnew
  · dsimp only at hnew
    rcases h2 : rangeOpen (fun h v => openButton creatable h v) conf.Buttons [] hp1
      with ⟨r2, hp2⟩
    rw [h2] at hnew
    rcases r2 with e2 | buttons
    · simp at hnew
    · dsimp only at hnew
      rcases h3 : rangeOpen (fun h v => openTrigger creatable h v.1 v.2) conf.Triggers [] hp2
        with ⟨r3, hp3⟩
      rw [h3] at hnew
      rcases r3 with e3 | triggers
      · simp at hnew
      · simp only [Prod.mk.injEq, Except.ok.injEq] at hnew
        obtain ⟨rfl, rfl⟩ := hnew
        exact ⟨hp1, hp2, h1, h2, h3⟩

/-- C10, the claim as stated fails: a well-formed configuration whose two
axis entries have the keys "1" and "01" builds a registry with one axis
translator, not two. -/
theorem newController_merges_equal_ids :
    sameAxisTwice.wf ∧ sameAxisTwice.Axes.length = 2 ∧
      ∃ c heap1, newController (fun _ _ => true) [] sameAxisTwice = (.ok c, heap1) ∧
        c.Axes.length = 1 ∧ c.Axes.length ≠ sameAxisTwice.Axes.length := by
  refine ⟨by decide, by decide,
    ⟨[(1, ⟨0x4000, false, false, ⟨4, 0, false⟩, ⟨5, 0, true⟩, ⟨6, 7, false⟩, ⟨7, 7, true⟩⟩)],
      [], []⟩,
    [⟨0, 0x7E, false⟩, ⟨1, 0x7E, true⟩, ⟨2, 0x7D, false⟩, ⟨3, 0x7D, true⟩,
      ⟨4, 0, false⟩, ⟨5, 0, true⟩, ⟨6, 7, false⟩, ⟨7, 7, true⟩], by decide, by decide, by decide⟩

/-- C10 as amended: for every configuration on which `newController`
succeeds, the registry holds exactly one translator per mapping entry of
every table whose id strings denote pairwise different integers: as many
axis translators as entries of `conf.Axes` when the ids of `conf.Axes` are
pairwise different, as many button translators as entries of `conf.Buttons`
when those of `conf.Buttons` are, as many trigger translators as entries of
`conf.Triggers` when those of `conf.Triggers` are. -/
theorem newController_one_translator_per_entry (creatable : Nat → Bool → Bool)
    (heap heap1 : List CGEventRef) (conf : config) (c : controller)
    (hnew : newController creatable heap conf = (.ok c, heap1)) :
    ((conf.Axes.map (fun e => Atoi e.1)).Nodup → c.Axes.length = conf.Axes.length) ∧
      ((conf.Buttons.map (fun e => Atoi e.1)).Nodup →
        c.Buttons.length = conf.Buttons.length) ∧
      ((conf.Triggers.map (fun e => Atoi e.1)).Nodup →
        c.Triggers.length = conf.Triggers.length) := by
  obtain ⟨hp1, hp2, h1, h2, h3⟩ := newController_tables hnew
  refine ⟨fun hA => ?_, fun hB => ?_, fun hT => ?_⟩
  · have l1 := rangeOpen_length _ _ _ _ _ _ h1 (by simpa using hA)
    simpa using l1
  · have l2 := rangeOpen_length _ _ _ _ _ _ h2 (by simpa using hB)
    simpa using l2
  · have l3 := rangeOpen_length _ _ _ _ _ _ h3 (by simpa using hT)
    simpa using l3

/-- Witness of the amended C10: two axes, two buttons and two triggers of
the default configuration, whose ids are pairwise different in each table,
give a registry with two translators in each table. -/
theorem newController_one_translator_per_entry_witness :
    newController (fun _ _ => true) [] twoOfEach =
        (.ok twoOfEachRegistry, twoOfEachRegistry.close) ∧
      (twoOfEach.Axes.map (fun e => Atoi e.1)).Nodup ∧
      (twoOfEach.Buttons.map (fun e => Atoi e.1)).Nodup ∧
      (twoOfEach.Triggers.map (fun e => Atoi e.1)).Nodup ∧
      twoOfEachRegistry.Axes.length = twoOfEach.Axes.length ∧
      twoOfEachRegistry.Buttons.length = twoOfEach.Buttons.length ∧
      twoOfEachRegistry.Triggers.length = twoOfEach.Triggers.length ∧
      twoOfEach.Axes.length = 2 ∧ twoOfEach.Buttons.length = 2 ∧
      twoOfEach.Triggers.length = 2 :=
  ⟨by decide, by decide, by decide, by decide,
    (newController_one_translator_per_entry (fun _ _ => true) [] twoOfEachRegistry.close
      twoOfEach twoOfEachRegistry (by decide)).1 (by decide),
    (newController_one_translator_per_entry (fun _ _ => true) [] twoOfEachRegistry.close
      twoOfEach twoOfEachRegistry (by decide)).2.1 (by decide),
    (newController_one_translator_per_entry (fun _ _ => true) [] twoOfEachRegistry.close
      twoOfEach twoOfEachRegistry (by decide)).2.2 (by decide),
    rfl, rfl, rfl⟩

/-! ## One call of `handleEvent` -/

theorem negInt_of_gt_min {T : Int} (h0 : minInt < T) (h1 : T ≤ maxInt) : negInt T = -T := by
  unfold negInt wrap64
  unfold minInt at h0 ⊢
  unfold maxInt at h1
  omega

/-- C14: for every axis state and every sample, the events one call of
`handleEvent` posts are at most one event of the negative direction (the
press or the release, never both) followed by at most one event of the
positive direction (the press or the release, never both), so at most two
events; on an axis with four different handles, each direction's two handles
are posted at most once together. -/
theorem axis_one_event_per_direction (a : axis) (v : Int) :
    (∃ en ep, (a.handleEvent v).2 = en ++ ep ∧
      (en = [] ∨ en = [a.nDown] ∨ en = [a.nUp]) ∧
      (ep = [] ∨ ep = [a.pDown] ∨ ep = [a.pUp])) ∧
      (a.handleEvent v).2.length ≤ 2 ∧
      (a.distinctHandles →
        (a.handleEvent v).2.count a.nDown + (a.handleEvent v).2.count a.nUp ≤ 1 ∧
        (a.handleEvent v).2.count a.pDown + (a.handleEvent v).2.count a.pUp ≤ 1) := by
  rw [axis_handleEvent_eq]
  refine ⟨⟨_, _, rfl, ?_, ?_⟩, ?_, ?_⟩
  · split_ifs <;> simp
  · split_ifs <;> simp
  · dsimp only
    split_ifs <;> simp
  · intro hd
    simp only [axis.distinctHandles, List.nodup_cons, List.mem_cons, List.mem_singleton,
      not_or, List.not_mem_nil, not_false_eq_true, List.nodup_nil, and_true] at hd
    obtain ⟨⟨h1, h2, h3⟩, ⟨h4, h5⟩, h6⟩ := hd
    dsimp only
    split_ifs <;>
      simp [List.count_cons, h1, h2, h3, h4, h5, h6, Ne.symm h1, Ne.symm h2, Ne.symm h3,
        Ne.symm h4, Ne.symm h5, Ne.symm h6]

theorem axis_handleEvent_not_both (a : axis) (v : Int) (hT : 0 < a.threshold)
    (hmax : a.threshold ≤ maxInt) :
    ¬ ((a.handleEvent v).1.negative = true ∧ (a.handleEvent v).1.positive = true) := by
  rw [axis_handleEvent_negative, axis_handleEvent_positive, negInt_of_pos hT hmax]
  simp only [decide_eq_true_eq, ge_iff_le, not_and, not_le]
  intro h
  omega

theorem axis_run_not_both (a : axis) (hT : 0 < a.threshold) (hmax : a.threshold ≤ maxInt)
    (h0 : ¬ (a.negative = true ∧ a.positive = true)) (samples : List Int) :
    ¬ ((a.run samples).1.negative = true ∧ (a.run samples).1.positive = true) := by
  induction samples generalizing a with
  | nil => simpa [axis.run] using h0
  | cons v vs ih =>
    simp only [axis.run]
    have hf := (axis_handleEvent_frame a v).1
    exact ih (a.handleEvent v).1 (by rw [hf]; exact hT) (by rw [hf]; exact hmax)
      (axis_handleEvent_not_both a v hT hmax)

/-- C15: for every threshold `T > 0` (a Go `int`), every axis with that
threshold, whatever its latches, and every sample, the two latches are not
both set after `handleEvent`; hence after any sequence of samples fed to an
axis freshly opened with threshold `T` the two latches are not both set. -/
theorem axis_never_both_latched (T : Int) (hT : 0 < T) (hmax : T ≤ maxInt) :
    (∀ (a : axis) (v : Int), a.threshold = T →
        ¬ ((a.handleEvent v).1.negative = true ∧ (a.handleEvent v).1.positive = true)) ∧
      (∀ (creatable : Nat → Bool → Bool) (heap heap1 : List CGEventRef) (neg pos : Int)
        (b : axis), openAxis creatable heap T neg pos = (.ok b, heap1) →
        ∀ samples : List Int,
          ¬ ((b.run samples).1.negative = true ∧ (b.run samples).1.positive = true)) := by
  constructor
  · intro a v ha
    exact axis_handleEvent_not_both a v (by rw [ha]; exact hT) (by rw [ha]; exact hmax)
  · intro creatable heap heap1 neg pos b hopen samples
    have hb := (openAxis_ok hopen).1
    have hth : b.threshold = T := by rw [hb]
    have hneg : b.negative = false := by rw [hb]
    exact axis_run_not_both b (by rw [hth]; exact hT) (by rw [hth]; exact hmax)
      (by rw [hneg]; simp) samples

/-- Witness of C15: the threshold `0x4000` of the default configuration. -/
theorem axis_never_both_latched_witness :
    (0 : Int) < 0x4000 ∧ (0x4000 : Int) ≤ maxInt ∧
      ¬ ((leftX.handleEvent 0x5000).1.negative = true ∧
        (leftX.handleEvent 0x5000).1.positive = true) :=
  ⟨by decide, by decide,
    (axis_never_both_latched 0x4000 (by decide) (by decide)).1 leftX 0x5000 rfl⟩

/-- C17: after a call of `handleEvent` the latches are functions of the
sample and the threshold alone: for every axis with threshold `T`, whatever
its latches, the negative latch is `v <= -T` and the positive latch is
`v >= T`; for every trigger the latch is `v >= T`.  The minus is the unary
minus of Go `int`, which is the negation of `T` for every `int` other than
the smallest one.  Each direction posts an event exactly when its latch
changed: the press when it became set, the release when it became clear. -/
theorem latches_follow_sample (a : axis) (t : trigger) (v : Int) :
    (a.handleEvent v).1.negative = decide (v ≤ negInt a.threshold) ∧
      (minInt < a.threshold → a.threshold ≤ maxInt →
        (a.handleEvent v).1.negative = decide (v ≤ -a.threshold)) ∧
      (a.handleEvent v).1.positive = decide (v ≥ a.threshold) ∧
      (t.handleEvent v).1.active = decide (v ≥ t.threshold) ∧
      (a.handleEvent v).2 =
        (if (a.handleEvent v).1.negative = a.negative then []
          else if (a.handleEvent v).1.negative then [a.nDown] else [a.nUp]) ++
        (if (a.handleEvent v).1.positive = a.positive then []
          else if (a.handleEvent v).1.positive then [a.pDown] else [a.pUp]) ∧
      (t.handleEvent v).2 =
        (if (t.handleEvent v).1.active = t.active then []
          else if (t.handleEvent v).1.active then [t.down] else [t.up]) := by
  refine ⟨axis_handleEvent_negative a v, ?_, axis_handleEvent_positive a v,
    trigger_handleEvent_active t v, ?_, ?_⟩
  · intro h0 h1
    rw [axis_handleEvent_negative, negInt_of_gt_min h0 h1]
  · rw [axis_handleEvent_eq]
    dsimp only
    cases a.negative <;> cases a.positive <;>
      cases decide (v ≤ negInt a.threshold) <;> cases decide (v ≥ a.threshold) <;> simp
  · rw [trigger_handleEvent_eq]
    dsimp only
    cases t.active <;> cases decide (v ≥ t.threshold) <;> simp

/-- C18: on an axis freshly opened with a threshold `T > 0` (a Go `int`), the
samples `[T, -T]` post positive-down, negative-down, positive-up: the
negative key is pressed before the positive key is released, the second call
posting its negative event first; the samples `[-T, T]` post negative-down,
negative-up, positive-down. -/
theorem axis_jump_order (creatable : Nat → Bool → Bool) (heap heap1 : List CGEventRef)
    (T neg pos : Int) (a : axis)
    (hopen : openAxis creatable heap T neg pos = (.ok a, heap1))
    (hT : 0 < T) (hmax : T ≤ maxInt) :
    (a.run [T, -T]).2 = [a.pDown, a.nDown, a.pUp] ∧
      ((a.handleEvent T).1.handleEvent (-T)).2 = [a.nDown, a.pUp] ∧
      (a.run [-T, T]).2 = [a.nDown, a.nUp, a.pDown] ∧
      ((a.handleEvent (-T)).1.handleEvent T).2 = [a.nUp, a.pDown] := by
  obtain ⟨rfl, -⟩ := openAxis_ok hopen
  have h1 : ¬ (T ≤ -T) := by omega
  simp only [axis.run, axis_handleEvent_eq, negInt_of_pos hT hmax, ge_iff_le, h1, le_refl]
  simp

/-- Witness of C18: the left stick of the default configuration thrown from
one end to the other. -/
theorem axis_jump_order_witness :
    openAxis (fun _ _ => true) [] 0x4000 0x7B 0x7C =
        (.ok leftX, [leftX.nUp, leftX.nDown, leftX.pUp, leftX.pDown]) ∧
      (0 : Int) < 0x4000 ∧ (0x4000 : Int) ≤ maxInt ∧
      ((leftX.run [0x4000, -0x4000]).2 = [leftX.pDown, leftX.nDown, leftX.pUp] ∧
        ((leftX.handleEvent 0x4000).1.handleEvent (-0x4000)).2 = [leftX.nDown, leftX.pUp] ∧
        (leftX.run [-0x4000, 0x4000]).2 = [leftX.nDown, leftX.nUp, leftX.pDown] ∧
        ((leftX.handleEvent (-0x4000)).1.handleEvent 0x4000).2 = [leftX.nUp, leftX.pDown]) :=
  ⟨by decide, by decide, by decide,
    axis_jump_order (fun _ _ => true) [] [leftX.nUp, leftX.nDown, leftX.pUp, leftX.pDown]
      0x4000 0x7B 0x7C leftX (by decide) (by decide) (by decide)⟩

/-! ## When `newController` succeeds -/

theorem createKey_succeeds_iff (creatable : Nat → Bool → Bool) (heap : List CGEventRef)
    (val : Int) :
    succeeds (createKey creatable heap val) ↔
      creatable (CGKeyCode val) false = true ∧ creatable (CGKeyCode val) true = true := by
  unfold succeeds createKey CGEventCreateKeyboardEvent
  cases h1 : creatable (CGKeyCode val) false <;> cases h2 : creatable (CGKeyCode val) true <;>
    simp [h1, h2]

theorem createKeyOk_iff (creatable : Nat → Bool → Bool) (val : Int) :
    createKeyOk creatable val ↔
      creatable (CGKeyCode val) false = true ∧ creatable (CGKeyCode val) true = true := by
  constructor
  · intro h
    exact (createKey_succeeds_iff creatable [] val).mp (h [])
  · intro h heap
    exact (createKey_succeeds_iff creatable heap val).mpr h

theorem createKey_succeeds_iff_ok (creatable : Nat → Bool → Bool) (heap : List CGEventRef)
    (val : Int) : succeeds (createKey creatable heap val) ↔ createKeyOk creatable val :=
  (createKey_succeeds_iff creatable heap val).trans (createKeyOk_iff creatable val).symm

theorem succeeds_error {α : Type} (err : Err) (heap : List CGEventRef) :
    ¬ succeeds ((Except.error err : Except Err α), heap) := by
  rintro ⟨a, h⟩
  exact Except.noConfusion h

theorem succeeds_ok {α : Type} (a : α) (heap : List CGEventRef) :
    succeeds ((Except.ok a : Except Err α), heap) := ⟨a, rfl⟩

theorem openButton_succeeds_iff (creatable : Nat → Bool → Bool) (heap : List CGEventRef)
    (val : Int) : succeeds (openButton creatable heap val) ↔ createKeyOk creatable val := by
  rw [← createKey_succeeds_iff_ok creatable heap val]
  unfold openButton
  rcases h1 : createKey creatable heap val with ⟨r1, hp1⟩
  rcases r1 with e1 | ⟨up, down⟩
  · simp [succeeds_error]
  · simp [succeeds_ok]

theorem openTrigger_succeeds_iff (creatable : Nat → Bool → Bool) (heap : List CGEventRef)
    (T val : Int) : succeeds (openTrigger creatable heap T val) ↔ createKeyOk creatable val := by
  rw [← createKey_succeeds_iff_ok creatable heap val]
  unfold openTrigger
  rcases h1 : createKey creatable heap val with ⟨r1, hp1⟩
  rcases r1 with e1 | ⟨up, down⟩
  · simp [succeeds_error]
  · simp [succeeds_ok]

theorem openAxis_succeeds_iff (creatable : Nat → Bool → Bool) (heap : List CGEventRef)
    (T neg pos : Int) :
    succeeds (openAxis creatable heap T neg pos) ↔
      createKeyOk creatable neg ∧ createKeyOk creatable pos := by
  rw [← createKey_succeeds_iff_ok creatable heap neg]
  unfold openAxis
  rcases h1 : createKey creatable heap neg with ⟨r1, hp1⟩
  rcases r1 with e1 | ⟨nUp, nDown⟩
  · simp [succeeds_error]
  · dsimp only
    rw [← createKey_succeeds_iff_ok creatable hp1 pos]
    rcases h2 : createKey creatable hp1 pos with ⟨r2, hp2⟩
    rcases r2 with e2 | ⟨pUp, pDown⟩
    · simp [succeeds_error]
    · simp [succeeds_ok]

theorem rangeOpen_succeeds_iff {α β : Type}
    (mk : List CGEventRef → β → Except Err α × List CGEventRef) (P : β → Prop)
    (hmk : ∀ h v, succeeds (mk h v) ↔ P v)
    (entries : List (String × β)) (table : List (Int × α)) (heap : List CGEventRef) :
    succeeds (rangeOpen mk entries table heap) ↔
      ∀ e ∈ entries, P e.2 ∧ ∃ i, Atoi e.1 = .ok i := by
  induction entries generalizing table heap with
  | nil => simp [rangeOpen, succeeds_ok]
  | cons e rest ih =>
    obtain ⟨k, v⟩ := e
    simp only [rangeOpen, List.mem_cons, forall_eq_or_imp]
    have hP := hmk heap v
    rcases hm : mk heap v with ⟨r, hp⟩
    rw [hm] at hP
    rcases r with err | a
    · have hnP : ¬ P v := fun h => succeeds_error err hp (hP.mpr h)
      simp [succeeds_error, hnP]
    · have hPv : P v := hP.mp (succeeds_ok a hp)
      dsimp only
      cases hk : Atoi k with
      | error err => simp [succeeds_error]
      | ok i =>
        dsimp only
        rw [ih (mapSet table i a) hp]
        simp [hPv]

theorem error_of_not_succeeds {α : Type} (r : Except Err α × List CGEventRef)
    (h : ¬ succeeds r) : ∃ err, r.1 = .error err := by
  rcases r with ⟨r1, hp⟩
  rcases r1 with err | a
  · exact ⟨err, rfl⟩
  · exact absurd (succeeds_ok a hp) h

theorem newController_ok_iff (creatable : Nat → Bool → Bool)
    (heap : List CGEventRef) (conf : config) :
    succeeds (newController creatable heap conf) ↔
      (∀ e ∈ conf.Axes, (createKeyOk creatable e.2.2.1 ∧ createKeyOk creatable e.2.2.2) ∧
        ∃ i, Atoi e.1 = .ok i) ∧
      (∀ e ∈ conf.Buttons, createKeyOk creatable e.2 ∧ ∃ i, Atoi e.1 = .ok i) ∧
      (∀ e ∈ conf.Triggers, createKeyOk creatable e.2.2 ∧ ∃ i, Atoi e.1 = .ok i) := by
  have hA := rangeOpen_succeeds_iff (fun h v => openAxis creatable h v.1 v.2.1 v.2.2)
    (fun v => createKeyOk creatable v.2.1 ∧ createKeyOk creatable v.2.2)
    (fun h v => openAxis_succeeds_iff creatable h v.1 v.2.1 v.2.2) conf.Axes [] heap
  unfold newController
  rcases h1 : rangeOpen (fun h v => openAxis creatable h v.1 v.2.1 v.2.2) conf.Axes [] heap
    with ⟨r1, hp1⟩
  rw [h1] at hA ⊢
  rcases r1 with e1 | axes
  · have hn := mt hA.mpr (succeeds_error e1 hp1)
    dsimp only
    exact iff_of_false (succeeds_error e1 hp1) (fun h => hn h.1)
  · have hAt := hA.mp (succeeds_ok axes hp1)
    dsimp only
    have hB := rangeOpen_succeeds_iff (fun h v => openButton creatable h v)
      (fun v => createKeyOk creatable v)
      (fun h v => openButton_succeeds_iff creatable h v) conf.Buttons [] hp1
    rcases h2 : rangeOpen (fun h v => openButton creatable h v) conf.Buttons [] hp1
      with ⟨r2, hp2⟩
    rw [h2] at hB
    rcases r2 with e2 | buttons
    · have hn := mt hB.mpr (succeeds_error e2 hp2)
      dsimp only
      exact iff_of_false (succeeds_error e2 hp2) (fun h => hn h.2.1)
    · have hBt := hB.mp (succeeds_ok buttons hp2)
      dsimp only
      have hT := rangeOpen_succeeds_iff (fun h v => openTrigger creatable h v.1 v.2)
        (fun v => createKeyOk creatable v.2)
        (fun h v => openTrigger_succeeds_iff creatable h v.1 v.2) conf.Triggers [] hp2
      rcases h3 : rangeOpen (fun h v => openTrigger creatable h v.1 v.2) conf.Triggers [] hp2
        with ⟨r3, hp3⟩
      rw [h3] at hT ⊢
      rcases r3 with e3 | triggers
      · have hn := mt hT.mpr (succeeds_error e3 hp3)
        exact iff_of_false (succeeds_error e3 hp3) (fun h => hn h.2.2)
      · have hTt := hT.mp (succeeds_ok triggers hp3)
        exact iff_of_true (succeeds_ok _ hp3) ⟨hAt, hBt, hTt⟩

/-- C12: `newController` returns a registry exactly when `createKey`
succeeds for every key code of the configuration and every id string is
accepted by `Atoi`; in particular, when `createKey` fails for the key code of
some axis, button or trigger entry it returns an error and no registry. -/
theorem newController_succeeds_iff (creatable : Nat → Bool → Bool)
    (heap : List CGEventRef) (conf : config) :
    (succeeds (newController creatable heap conf) ↔
      (∀ e ∈ conf.Axes, (createKeyOk creatable e.2.2.1 ∧ createKeyOk creatable e.2.2.2) ∧
        ∃ i, Atoi e.1 = .ok i) ∧
      (∀ e ∈ conf.Buttons, createKeyOk creatable e.2 ∧ ∃ i, Atoi e.1 = .ok i) ∧
      (∀ e ∈ conf.Triggers, createKeyOk creatable e.2.2 ∧ ∃ i, Atoi e.1 = .ok i)) ∧
      (((∃ e ∈ conf.Axes, ¬ createKeyOk creatable e.2.2.1 ∨ ¬ createKeyOk creatable e.2.2.2) ∨
          (∃ e ∈ conf.Buttons, ¬ createKeyOk creatable e.2) ∨
          (∃ e ∈ conf.Triggers, ¬ createKeyOk creatable e.2.2)) →
        ∃ err, (newController creatable heap conf).1 = .error err) := by
  refine ⟨newController_ok_iff creatable heap conf, ?_⟩
  intro hfail
  apply error_of_not_succeeds
  intro hs
  obtain ⟨hA, hB, hT⟩ := (newController_ok_iff creatable heap conf).mp hs
  rcases hfail with ⟨e, he, h⟩ | ⟨e, he, h⟩ | ⟨e, he, h⟩
  · rcases h with h | h
    · exact h (hA e he).1.1
    · exact h (hA e he).1.2
  · exact h (hB e he).1
  · exact h (hT e he).1

/-! ## What the registry holds -/

theorem mem_mapSet {α : Type} (m : List (Int × α)) (k : Int) (v : α) (x : Int × α)
    (h : x ∈ mapSet m k v) : x = (k, v) ∨ x ∈ m := by
  induction m with
  | nil => simpa [mapSet] using h
  | cons e rest ih =>
    obtain ⟨k1, v1⟩ := e
    simp only [mapSet] at h
    split_ifs at h with hk
    · rcases List.mem_cons.mp h with h | h
      · exact Or.inl h
      · exact Or.inr (List.mem_cons_of_mem _ h)
    · rcases List.mem_cons.mp h with h | h
      · exact Or.inr (h ▸ List.mem_cons_self _ _)
      · rcases ih h with h | h
        · exact Or.inl h
        · exact Or.inr (List.mem_cons_of_mem _ h)

theorem rangeOpen_mem {α β : Type}
    (mk : List CGEventRef → β → Except Err α × List CGEventRef)
    (entries : List (String × β)) (table t : List (Int × α)) (heap heap1 : List CGEventRef)
    (h : rangeOpen mk entries table heap = (.ok t, heap1)) (x : Int × α) (hx : x ∈ t) :
    x ∈ table ∨ ∃ e ∈ entries, Atoi e.1 = .ok x.1 ∧ ∃ h0 h1, mk h0 e.2 = (.ok x.2, h1) := by
  induction entries generalizing table heap with
  | nil =>
    simp only [rangeOpen, Prod.mk.injEq, Except.ok.injEq] at h
    exact Or.inl (h.1 ▸ hx)
  | cons e rest ih =>
    obtain ⟨k, v⟩ := e
    simp only [rangeOpen] at h
    rcases hm : mk heap v with ⟨r, hp⟩
    rw [hm] at h
    rcases r with err | a
    · simp at h
    · dsimp only at h
      cases hk : Atoi k with
      | error err => rw [hk] at h; simp at h
      | ok i =>
        rw [hk] at h
        dsimp only at h
        rcases ih (mapSet table i a) hp h with h2 | ⟨e, he, h2⟩
        · rcases mem_mapSet table i a x h2 with h3 | h3
          · refine Or.inr ⟨(k, v), List.mem_cons_self _ _, ?_, heap, hp, ?_⟩
            · rw [h3]; exact hk
            · rw [h3]; exact hm
          · exact Or.inl h3
        · exact Or.inr ⟨e, List.mem_cons_of_mem _ he, h2⟩

/-- C16, the claim as stated fails: `newController` succeeds on a
configuration with an axis threshold 0 and a trigger threshold -1, and the
registry holds translators with these thresholds. -/
theorem newController_keeps_non_positive_thresholds :
    ∃ c heap1, newController (fun _ _ => true) [] nonPositiveThresholds = (.ok c, heap1) ∧
      (∃ x ∈ c.Axes, ¬ 0 < x.2.threshold) ∧ (∃ x ∈ c.Triggers, ¬ 0 < x.2.threshold) := by
  refine ⟨⟨[(0, ⟨0, false, false, ⟨0, 0x7B, false⟩, ⟨1, 0x7B, true⟩, ⟨2, 0x7C, false⟩,
      ⟨3, 0x7C, true⟩⟩)], [], [(4, ⟨-1, false, ⟨4, 0x0E, false⟩, ⟨5, 0x0E, true⟩⟩)]⟩,
    [⟨0, 0x7B, false⟩, ⟨1, 0x7B, true⟩, ⟨2, 0x7C, false⟩, ⟨3, 0x7C, true⟩,
      ⟨4, 0x0E, false⟩, ⟨5, 0x0E, true⟩], by decide, ?_, ?_⟩
  · exact ⟨_, List.mem_cons_self _ _, by decide⟩
  · exact ⟨_, List.mem_cons_self _ _, by decide⟩

/-- C16 as amended: for every configuration on which `newController`
succeeds, every axis translator and every trigger translator of the registry
has the threshold of an entry of its table of the configuration, the entry
whose key denotes the id it is stored under, whatever that threshold is;
`newController` checks no threshold.  So the axis translators have threshold
> 0 when every axis threshold of the configuration is > 0, and the trigger
translators when every trigger threshold is. -/
theorem newController_thresholds (creatable : Nat → Bool → Bool)
    (heap heap1 : List CGEventRef) (conf : config) (c : controller)
    (hnew : newController creatable heap conf = (.ok c, heap1)) :
    (∀ x ∈ c.Axes, ∃ e ∈ conf.Axes, Atoi e.1 = .ok x.1 ∧ x.2.threshold = e.2.1) ∧
      (∀ x ∈ c.Triggers, ∃ e ∈ conf.Triggers, Atoi e.1 = .ok x.1 ∧ x.2.threshold = e.2.1) ∧
      ((∀ e ∈ conf.Axes, 0 < e.2.1) → ∀ x ∈ c.Axes, 0 < x.2.threshold) ∧
      ((∀ e ∈ conf.Triggers, 0 < e.2.1) → ∀ x ∈ c.Triggers, 0 < x.2.threshold) := by
  obtain ⟨hp1, hp2, h1, -, h3⟩ := newController_tables hnew
  have hax : ∀ x ∈ c.Axes, ∃ e ∈ conf.Axes, Atoi e.1 = .ok x.1 ∧ x.2.threshold = e.2.1 := by
    intro x hx
    rcases rangeOpen_mem _ _ _ _ _ _ h1 x hx with h | ⟨e, he, hk, h0, h1', hopen⟩
    · simp at h
    · exact ⟨e, he, hk, by rw [(openAxis_ok hopen).1]⟩
  have htr : ∀ x ∈ c.Triggers,
      ∃ e ∈ conf.Triggers, Atoi e.1 = .ok x.1 ∧ x.2.threshold = e.2.1 := by
    intro x hx
    rcases rangeOpen_mem _ _ _ _ _ _ h3 x hx with h | ⟨e, he, hk, h0, h1', hopen⟩
    · simp at h
    · exact ⟨e, he, hk, by rw [(openTrigger_ok hopen).1]⟩
  refine ⟨hax, htr, ?_, ?_⟩
  · intro hA x hx
    obtain ⟨e, he, -, hth⟩ := hax x hx
    rw [hth]
    exact hA e he
  · intro hT x hx
    obtain ⟨e, he, -, hth⟩ := htr x hx
    rw [hth]
    exact hT e he

/-- Witness of the amended C16: on the configuration with the thresholds 0
and -1 the translators of the registry carry these thresholds of their
entries; on two axes and two triggers of the default configuration, whose
thresholds are `0x4000`, every axis and trigger translator has a threshold
> 0. -/
theorem newController_thresholds_witness :
    (newController (fun _ _ => true) [] nonPositiveThresholds =
        (.ok nonPositiveRegistry, nonPositiveRegistry.close) ∧
      (∀ x ∈ nonPositiveRegistry.Axes,
        ∃ e ∈ nonPositiveThresholds.Axes, Atoi e.1 = .ok x.1 ∧ x.2.threshold = e.2.1) ∧
      (∀ x ∈ nonPositiveRegistry.Triggers,
        ∃ e ∈ nonPositiveThresholds.Triggers, Atoi e.1 = .ok x.1 ∧ x.2.threshold = e.2.1)) ∧
      (newController (fun _ _ => true) [] twoOfEach =
        (.ok twoOfEachRegistry, twoOfEachRegistry.close) ∧
      (∀ e ∈ twoOfEach.Axes, 0 < e.2.1) ∧ (∀ e ∈ twoOfEach.Triggers, 0 < e.2.1) ∧
      (∀ x ∈ twoOfEachRegistry.Axes, 0 < x.2.threshold) ∧
      (∀ x ∈ twoOfEachRegistry.Triggers, 0 < x.2.threshold)) :=
  ⟨⟨by decide,
      (newController_thresholds (fun _ _ => true) [] nonPositiveRegistry.close
        nonPositiveThresholds nonPositiveRegistry (by decide)).1,
      (newController_thresholds (fun _ _ => true) [] nonPositiveRegistry.close
        nonPositiveThresholds nonPositiveRegistry (by decide)).2.1⟩,
    ⟨by decide, by decide, by decide,
      (newController_thresholds (fun _ _ => true) [] twoOfEachRegistry.close
        twoOfEach twoOfEachRegistry (by decide)).2.2.1 (by decide),
      (newController_thresholds (fun _ _ => true) [] twoOfEachRegistry.close
        twoOfEach twoOfEachRegistry (by decide)).2.2.2 (by decide)⟩⟩

/-! ## Construction followed by teardown -/

theorem mapSet_of_not_mem {α : Type} (m : List (Int × α)) (k : Int) (v : α)
    (h : k ∉ m.map Prod.fst) : mapSet m k v = m ++ [(k, v)] := by
  induction m with
  | nil => rfl
  | cons e rest ih =>
    obtain ⟨k1, v1⟩ := e
    simp only [List.map_cons, List.mem_cons, not_or] at h
    simp only [mapSet, if_neg (Ne.symm h.1), List.cons_append, ih h.2]

theorem openButton_ok {creatable : Nat → Bool → Bool} {heap heap1 : List CGEventRef}
    {val : Int} {b : button} (h : openButton creatable heap val = (.ok b, heap1)) :
    b = { up := ⟨heap.length, CGKeyCode val, false⟩,
          down := ⟨heap.length + 1, CGKeyCode val, true⟩ } ∧
      heap1 = heap ++ [b.up, b.down] := by
  unfold openButton at h
  rcases h1 : createKey creatable heap val with ⟨r1, hp1⟩
  rw [h1] at h
  rcases r1 with e1 | ⟨up, down⟩
  · simp at h
  · simp only [Prod.mk.injEq, Except.ok.injEq] at h
    obtain ⟨rfl, rfl⟩ := h
    obtain ⟨rfl, rfl, rfl, -, -⟩ := createKey_ok h1
    simp

theorem rangeOpen_heap {α β : Type}
    (mk : List CGEventRef → β → Except Err α × List CGEventRef) (close : α → List CGEventRef)
    (hmk : ∀ h v a h1, mk h v = (.ok a, h1) → h1 = h ++ close a)
    (entries : List (String × β)) (table t : List (Int × α)) (heap heap1 : List CGEventRef)
    (h : rangeOpen mk entries table heap = (.ok t, heap1))
    (hnd : (table.map (fun e => (Except.ok e.1 : Except Err Int)) ++
      entries.map (fun e => Atoi e.1)).Nodup) :
    ∃ added, t = table ++ added ∧
      heap1 = heap ++ (added.map (fun e => close e.2)).flatten := by
  induction entries generalizing table heap with
  | nil =>
    simp only [rangeOpen, Prod.mk.injEq, Except.ok.injEq] at h
    exact ⟨[], by simp [h.1], by simp [h.2]⟩
  | cons e rest ih =>
    obtain ⟨k, v⟩ := e
    simp only [rangeOpen] at h
    rcases hm : mk heap v with ⟨r, hp⟩
    rw [hm] at h
    rcases r with err | a
    · simp at h
    · dsimp only at h
      cases hk : Atoi k with
      | error err => rw [hk] at h; simp at h
      | ok i =>
        rw [hk] at h
        dsimp only at h
        simp only [List.map_cons, hk] at hnd
        have hmid := List.nodup_middle.mp hnd
        have hi : i ∉ table.map Prod.fst := by
          intro hmem
          apply (List.nodup_cons.mp hmid).1
          apply List.mem_append_left
          obtain ⟨x, hx, rfl⟩ := List.mem_map.mp hmem
          exact List.mem_map.mpr ⟨x, hx, rfl⟩
        have hset := mapSet_of_not_mem table i a hi
        have hnd1 : ((mapSet table i a).map (fun e => (Except.ok e.1 : Except Err Int)) ++
            rest.map (fun e => Atoi e.1)).Nodup := by
          rw [hset]
          simpa [List.append_assoc] using hnd
        obtain ⟨added, ht, hh⟩ := ih (mapSet table i a) hp h hnd1
        refine ⟨(i, a) :: added, ?_, ?_⟩
        · rw [ht, hset, List.append_assoc]; rfl
        · rw [hh, hmk heap v a hp hm]
          simp [List.append_assoc]

theorem heapWf_snoc (heap : List CGEventRef) (code : Nat) (keyDown : Bool)
    (h : heapWf heap) : heapWf (heap ++ [⟨heap.length, code, keyDown⟩]) := by
  unfold heapWf at h ⊢
  simp [h, List.range_succ]

theorem createKey_heapWf (creatable : Nat → Bool → Bool) (heap : List CGEventRef) (val : Int)
    (h : heapWf heap) : heapWf (createKey creatable heap val).2 := by
  have w1 := heapWf_snoc heap (CGKeyCode val) false h
  have w2 := heapWf_snoc _ (CGKeyCode val) true w1
  unfold createKey CGEventCreateKeyboardEvent
  cases h1 : creatable (CGKeyCode val) false <;> cases h2 : creatable (CGKeyCode val) true
  · simpa [h1, h2] using h
  · simpa [h1, h2] using h
  · simpa [h1, h2] using w1
  · simpa [h1, h2] using w2

theorem openAxis_heapWf (creatable : Nat → Bool → Bool) (heap : List CGEventRef)
    (T neg pos : Int) (h : heapWf heap) : heapWf (openAxis creatable heap T neg pos).2 := by
  have w1 := createKey_heapWf creatable heap neg h
  unfold openAxis
  rcases h1 : createKey creatable heap neg with ⟨r1, hp1⟩
  rw [h1] at w1
  rcases r1 with e1 | ⟨nUp, nDown⟩
  · exact w1
  · have w2 := createKey_heapWf creatable hp1 pos w1
    dsimp only
    rcases h2 : createKey creatable hp1 pos with ⟨r2, hp2⟩
    rw [h2] at w2
    rcases r2 with e2 | ⟨pUp, pDown⟩
    · exact w2
    · exact w2

theorem openButton_heapWf (creatable : Nat → Bool → Bool) (heap : List CGEventRef)
    (val : Int) (h : heapWf heap) : heapWf (openButton creatable heap val).2 := by
  have w1 := createKey_heapWf creatable heap val h
  unfold openButton
  rcases h1 : createKey creatable heap val with ⟨r1, hp1⟩
  rw [h1] at w1
  rcases r1 with e1 | ⟨up, down⟩
  · exact w1
  · exact w1

theorem openTrigger_heapWf (creatable : Nat → Bool → Bool) (heap : List CGEventRef)
    (T val : Int) (h : heapWf heap) : heapWf (openTrigger creatable heap T val).2 := by
  have w1 := createKey_heapWf creatable heap val h
  unfold openTrigger
  rcases h1 : createKey creatable heap val with ⟨r1, hp1⟩
  rw [h1] at w1
  rcases r1 with e1 | ⟨up, down⟩
  · exact w1
  · exact w1

theorem rangeOpen_heapWf {α β : Type}
    (mk : List CGEventRef → β → Except Err α × List CGEventRef)
    (hmk : ∀ h v, heapWf h → heapWf (mk h v).2)
    (entries : List (String × β)) (table : List (Int × α)) (heap : List CGEventRef)
    (h : heapWf heap) : heapWf (rangeOpen mk entries table heap).2 := by
  induction entries generalizing table heap with
  | nil => exact h
  | cons e rest ih =>
    obtain ⟨k, v⟩ := e
    have w := hmk heap v h
    simp only [rangeOpen]
    rcases hm : mk heap v with ⟨r, hp⟩
    rw [hm] at w
    rcases r with err | a
    · exact w
    · dsimp only
      cases hk : Atoi k with
      | error err => exact w
      | ok i => exact ih (mapSet table i a) hp w

theorem newController_close_releases_all (creatable : Nat → Bool → Bool)
    (heap heap1 : List CGEventRef) (conf : config) (c : controller)
    (hnew : newController creatable heap conf = (.ok c, heap1)) (hwf : heapWf heap)
    (hA : (conf.Axes.map (fun e => Atoi e.1)).Nodup)
    (hB : (conf.Buttons.map (fun e => Atoi e.1)).Nodup)
    (hT : (conf.Triggers.map (fun e => Atoi e.1)).Nodup) :
    heap1 = heap ++ c.close ∧ c.close.Nodup ∧ ∀ x ∈ c.close, x ∉ heap := by
  obtain ⟨hp1, hp2, h1, h2, h3⟩ := newController_tables hnew
  obtain ⟨a1, t1, g1⟩ := rangeOpen_heap _ axis.close
    (fun h v a h1 hopen => by rw [(openAxis_ok hopen).2]; rfl) _ _ _ _ _ h1 (by simpa using hA)
  obtain ⟨a2, t2, g2⟩ := rangeOpen_heap _ button.close
    (fun h v a h1 hopen => by rw [(openButton_ok hopen).2]; rfl) _ _ _ _ _ h2
    (by simpa using hB)
  obtain ⟨a3, t3, g3⟩ := rangeOpen_heap _ trigger.close
    (fun h v a h1 hopen => by rw [(openTrigger_ok hopen).2]; rfl) _ _ _ _ _ h3
    (by simpa using hT)
  simp only [List.nil_append] at t1 t2 t3
  have hgrow : heap1 = heap ++ c.close := by
    rw [g3, g2, g1, controller.close, t1, t2, t3]
    simp [List.append_assoc]
  have w1 : heapWf hp1 := by
    have := rangeOpen_heapWf (fun h v => openAxis creatable h v.1 v.2.1 v.2.2)
      (fun h v hw => openAxis_heapWf creatable h v.1 v.2.1 v.2.2 hw) conf.Axes [] heap hwf
    rwa [h1] at this
  have w2 : heapWf hp2 := by
    have := rangeOpen_heapWf (fun h v => openButton creatable h v)
      (fun h v hw => openButton_heapWf creatable h v hw) conf.Buttons [] hp1 w1
    rwa [h2] at this
  have w3 : heapWf heap1 := by
    have := rangeOpen_heapWf (fun h v => openTrigger creatable h v.1 v.2)
      (fun h v hw => openTrigger_heapWf creatable h v.1 v.2 hw) conf.Triggers [] hp2 w2
    rwa [h3] at this
  have hnd : heap1.Nodup := by
    apply List.Nodup.of_map CGEventRef.id
    rw [w3]
    exact List.nodup_range _
  rw [hgrow] at hnd
  obtain ⟨-, hc, hdis⟩ := List.nodup_append.mp hnd
  exact ⟨hgrow, hc, fun x hx hh => hdis hh hx⟩

/-- C11, the code at the failing input: in a configuration whose axis keys
"1" and "01" denote the same id, `newController` constructs eight handles on
the empty heap and succeeds, and `close` right after it releases only the
four handles of the translator that was stored last; the four handles of the
overwritten translator are never released. -/
theorem close_leaks_overwritten_translator :
    sameAxisTwice.wf ∧
      ∃ c heap1, newController (fun _ _ => true) [] sameAxisTwice = (.ok c, heap1) ∧
        heap1.length = 8 ∧ c.close.length = 4 ∧
        heap1.filter (fun x => decide (x ∉ c.close)) =
          [⟨0, 0x7E, false⟩, ⟨1, 0x7E, true⟩, ⟨2, 0x7D, false⟩, ⟨3, 0x7D, true⟩] := by
  refine ⟨by decide,
    ⟨[(1, ⟨0x4000, false, false, ⟨4, 0, false⟩, ⟨5, 0, true⟩, ⟨6, 7, false⟩, ⟨7, 7, true⟩⟩)],
      [], []⟩,
    [⟨0, 0x7E, false⟩, ⟨1, 0x7E, true⟩, ⟨2, 0x7D, false⟩, ⟨3, 0x7D, true⟩,
      ⟨4, 0, false⟩, ⟨5, 0, true⟩, ⟨6, 7, false⟩, ⟨7, 7, true⟩], by decide, by decide,
    by decide, by decide⟩

/-! ## The key codes of a translator -/

/-- C13, the claim as stated fails: an axis entry that assigns the value
65659 to the negative direction yields an axis whose first sample `<= -T`
posts a press of key 123, the low 16 bits of 65659, not of a key 65659. -/
theorem openAxis_truncates_key_code :
    ∃ a heap1, openAxis (fun _ _ => true) [] 0x4000 65659 0x7C = (.ok a, heap1) ∧
      (a.handleEvent (-0x4000)).2 = [a.nDown] ∧ a.nDown.keyCode = 123 ∧
      (a.nDown.keyCode : Int) ≠ 65659 := by
  refine ⟨⟨0x4000, false, false, ⟨0, 123, false⟩, ⟨1, 123, true⟩, ⟨2, 124, false⟩,
      ⟨3, 124, true⟩⟩,
    [⟨0, 123, false⟩, ⟨1, 123, true⟩, ⟨2, 124, false⟩, ⟨3, 124, true⟩],
    by decide, by decide, by decide, by decide⟩

theorem CGKeyCode_cast (n : Int) : (CGKeyCode n : Int) = n % 65536 := by
  unfold CGKeyCode
  omega

theorem emod_of_isKeyCode {n : Int} (h : isKeyCode n) : n % 65536 = n := by
  unfold isKeyCode at h
  omega

theorem openAxis_emits {creatable : Nat → Bool → Bool} {heap heap1 : List CGEventRef}
    {T n p : Int} {a : axis} (hopen : openAxis creatable heap T n p = (.ok a, heap1)) :
    a.emits T (n % 65536) (p % 65536) := by
  obtain ⟨rfl, -⟩ := openAxis_ok hopen
  have hpos : ∀ v : Int, v ≥ T →
      (⟨heap.length + 3, CGKeyCode p, true⟩ : CGEventRef) ∈
        (axis.handleEvent ⟨T, false, false, ⟨heap.length, CGKeyCode n, false⟩,
          ⟨heap.length + 1, CGKeyCode n, true⟩, ⟨heap.length + 2, CGKeyCode p, false⟩,
          ⟨heap.length + 3, CGKeyCode p, true⟩⟩ v).2 := by
    intro v hv
    rw [axis_handleEvent_eq]
    simp [hv]
  have hneg : ∀ v : Int, v ≤ negInt T →
      (⟨heap.length + 1, CGKeyCode n, true⟩ : CGEventRef) ∈
        (axis.handleEvent ⟨T, false, false, ⟨heap.length, CGKeyCode n, false⟩,
          ⟨heap.length + 1, CGKeyCode n, true⟩, ⟨heap.length + 2, CGKeyCode p, false⟩,
          ⟨heap.length + 3, CGKeyCode p, true⟩⟩ v).2 := by
    intro v hv
    rw [axis_handleEvent_eq]
    simp [hv]
  refine ⟨rfl, ⟨CGKeyCode_cast n, rfl⟩, ⟨CGKeyCode_cast n, rfl⟩, ⟨CGKeyCode_cast p, rfl⟩,
    ⟨CGKeyCode_cast p, rfl⟩, hpos, hneg, ?_⟩
  intro h0 h1 v hv
  exact hneg v (by rw [negInt_of_gt_min h0 h1]; exact hv)

theorem openTrigger_emits {creatable : Nat → Bool → Bool} {heap heap1 : List CGEventRef}
    {T k : Int} {t : trigger} (hopen : openTrigger creatable heap T k = (.ok t, heap1)) :
    t.emits T (k % 65536) := by
  obtain ⟨rfl, -⟩ := openTrigger_ok hopen
  refine ⟨rfl, ⟨CGKeyCode_cast k, rfl⟩, ⟨CGKeyCode_cast k, rfl⟩, ?_⟩
  intro v hv
  rw [trigger_handleEvent_eq]
  simp [hv]

theorem openButton_emits {creatable : Nat → Bool → Bool} {heap heap1 : List CGEventRef}
    {k : Int} {b : button} (hopen : openButton creatable heap k = (.ok b, heap1)) :
    b.emits (k % 65536) := by
  obtain ⟨rfl, -⟩ := openButton_ok hopen
  exact ⟨⟨rfl, CGKeyCode_cast k, rfl⟩, ⟨rfl, CGKeyCode_cast k, rfl⟩⟩

theorem mem_keys_mapSet {α : Type} (m : List (Int × α)) (k : Int) (v : α) (k2 : Int)
    (h : k2 = k ∨ k2 ∈ m.map Prod.fst) : k2 ∈ (mapSet m k v).map Prod.fst := by
  induction m with
  | nil =>
    rcases h with h | h
    · simp [mapSet, h]
    · simp at h
  | cons e rest ih =>
    obtain ⟨k1, v1⟩ := e
    by_cases hk : k1 = k
    · subst hk
      simp only [mapSet, if_true, List.map_cons, List.mem_cons]
      simpa using h
    · simp only [mapSet, if_neg hk, List.map_cons, List.mem_cons]
      rcases h with h | h
      · exact Or.inr (ih (Or.inl h))
      · simp only [List.map_cons, List.mem_cons] at h
        rcases h with h | h
        · exact Or.inl h
        · exact Or.inr (ih (Or.inr h))

theorem rangeOpen_keys {α β : Type}
    (mk : List CGEventRef → β → Except Err α × List CGEventRef)
    (entries : List (String × β)) (table t : List (Int × α)) (heap heap1 : List CGEventRef)
    (h : rangeOpen mk entries table heap = (.ok t, heap1)) :
    (∀ k ∈ table.map Prod.fst, k ∈ t.map Prod.fst) ∧
      (∀ e ∈ entries, ∃ x ∈ t, Atoi e.1 = .ok x.1) := by
  induction entries generalizing table heap with
  | nil =>
    simp only [rangeOpen, Prod.mk.injEq, Except.ok.injEq] at h
    rw [← h.1]
    exact ⟨fun k hk => hk, fun e he => absurd he (List.not_mem_nil e)⟩
  | cons e rest ih =>
    obtain ⟨k, v⟩ := e
    simp only [rangeOpen] at h
    rcases hm : mk heap v with ⟨r, hp⟩
    rw [hm] at h
    rcases r with err | a
    · simp at h
    · dsimp only at h
      cases hk : Atoi k with
      | error err => rw [hk] at h; simp at h
      | ok i =>
        rw [hk] at h
        dsimp only at h
        obtain ⟨ih1, ih2⟩ := ih (mapSet table i a) hp h
        refine ⟨fun k2 hk2 => ih1 k2 (mem_keys_mapSet table i a k2 (Or.inr hk2)), ?_⟩
        intro e he
        rcases List.mem_cons.mp he with rfl | he
        · have hi := ih1 i (mem_keys_mapSet table i a i (Or.inl rfl))
          obtain ⟨x, hx, hxi⟩ := List.mem_map.mp hi
          exact ⟨x, hx, by rw [hxi]; exact hk⟩
        · exact ih2 e he

/-- C13 as amended: a translator built from a configuration entry emits the
key codes the entry assigns, as `C.CGKeyCode` converts them: their low 16
bits, which are the codes themselves when they lie in 0..65535.  In the
registry `newController` returns, every axis is stored under the id of an
entry `[T, n, p]` of `conf.Axes` and is the axis `openAxis(T, n, p)` yields:
threshold `T`, negative handles the press and release of key `n`, positive
handles the press and release of key `p`, so that a first sample `>= T`
posts the press of `p` and a first sample `<= -T` the press of `n`; every
trigger is stored under the id of an entry `[T, k]` of `conf.Triggers` and
has threshold `T` and the press and release of key `k`; every button is
stored under the id of an entry `k` of `conf.Buttons`, and `handleDown`
posts the press of `k`, `handleUp` its release.  The id of every entry has a
translator in the registry. -/
theorem translators_emit_assigned_keys (creatable : Nat → Bool → Bool)
    (heap heap1 : List CGEventRef) (conf : config) (c : controller)
    (hnew : newController creatable heap conf = (.ok c, heap1)) :
    (∀ x ∈ c.Axes, ∃ e ∈ conf.Axes, Atoi e.1 = .ok x.1 ∧
        x.2.emits e.2.1 (e.2.2.1 % 65536) (e.2.2.2 % 65536) ∧
        (isKeyCode e.2.2.1 → isKeyCode e.2.2.2 → x.2.emits e.2.1 e.2.2.1 e.2.2.2)) ∧
      (∀ x ∈ c.Triggers, ∃ e ∈ conf.Triggers, Atoi e.1 = .ok x.1 ∧
        x.2.emits e.2.1 (e.2.2 % 65536) ∧ (isKeyCode e.2.2 → x.2.emits e.2.1 e.2.2)) ∧
      (∀ x ∈ c.Buttons, ∃ e ∈ conf.Buttons, Atoi e.1 = .ok x.1 ∧
        x.2.emits (e.2 % 65536) ∧ (isKeyCode e.2 → x.2.emits e.2)) ∧
      (∀ e ∈ conf.Axes, ∃ x ∈ c.Axes, Atoi e.1 = .ok x.1) ∧
      (∀ e ∈ conf.Triggers, ∃ x ∈ c.Triggers, Atoi e.1 = .ok x.1) ∧
      (∀ e ∈ conf.Buttons, ∃ x ∈ c.Buttons, Atoi e.1 = .ok x.1) ∧
      (∀ (h0 h1 : List CGEventRef) (T n p : Int) (a : axis),
        openAxis creatable h0 T n p = (.ok a, h1) → a.emits T (n % 65536) (p % 65536)) ∧
      (∀ (h0 h1 : List CGEventRef) (T k : Int) (t : trigger),
        openTrigger creatable h0 T k = (.ok t, h1) → t.emits T (k % 65536)) ∧
      (∀ (h0 h1 : List CGEventRef) (k : Int) (b : button),
        openButton creatable h0 k = (.ok b, h1) → b.emits (k % 65536)) := by
  obtain ⟨hp1, hp2, h1, h2, h3⟩ := newController_tables hnew
  refine ⟨?_, ?_, ?_, (rangeOpen_keys _ _ _ _ _ _ h1).2, (rangeOpen_keys _ _ _ _ _ _ h3).2,
    (rangeOpen_keys _ _ _ _ _ _ h2).2, fun _ _ _ _ _ _ h => openAxis_emits h,
    fun _ _ _ _ _ h => openTrigger_emits h, fun _ _ _ _ h => openButton_emits h⟩
  · intro x hx
    rcases rangeOpen_mem _ _ _ _ _ _ h1 x hx with h | ⟨e, he, hk, h0, h1', hopen⟩
    · simp at h
    · have hem := openAxis_emits hopen
      refine ⟨e, he, hk, hem, fun hn hp => ?_⟩
      rw [emod_of_isKeyCode hn, emod_of_isKeyCode hp] at hem
      exact hem
  · intro x hx
    rcases rangeOpen_mem _ _ _ _ _ _ h3 x hx with h | ⟨e, he, hk, h0, h1', hopen⟩
    · simp at h
    · have hem := openTrigger_emits hopen
      refine ⟨e, he, hk, hem, fun hkc => ?_⟩
      rw [emod_of_isKeyCode hkc] at hem
      exact hem
  · intro x hx
    rcases rangeOpen_mem _ _ _ _ _ _ h2 x hx with h | ⟨e, he, hk, h0, h1', hopen⟩
    · simp at h
    · have hem := openButton_emits hopen
      refine ⟨e, he, hk, hem, fun hkc => ?_⟩
      rw [emod_of_isKeyCode hkc] at hem
      exact hem

/-- Witness of the amended C13: in the registry built from two axes, two
buttons and two triggers of the default configuration, whose key codes lie
in 0..65535, the axis under id 0 emits for the entry `[0x4000, 0x7B, 0x7C]`,
the trigger under id 4 for the entry `[0x4000, 0x0E]` and the button under
id 1 for the entry `0x07`. -/
theorem translators_emit_assigned_keys_witness :
    newController (fun _ _ => true) [] twoOfEach =
        (.ok twoOfEachRegistry, twoOfEachRegistry.close) ∧
      (isKeyCode 0x7B ∧ isKeyCode 0x7C ∧ isKeyCode 0x0E ∧ isKeyCode 0x07) ∧
      leftX.emits 0x4000 0x7B 0x7C ∧
      trigger.emits ⟨0x4000, false, ⟨12, 0x0E, false⟩, ⟨13, 0x0E, true⟩⟩ 0x4000 0x0E ∧
      button.emits ⟨⟨10, 0x07, false⟩, ⟨11, 0x07, true⟩⟩ 0x07 := by
  have h := translators_emit_assigned_keys (fun _ _ => true) [] twoOfEachRegistry.close
    twoOfEach twoOfEachRegistry (by decide)
  refine ⟨by decide, by decide, ?_, ?_, ?_⟩
  · obtain ⟨e, he, hid, -, hin⟩ := h.1 (0, leftX) (by decide)
    simp only [twoOfEach, List.mem_cons, List.mem_singleton, List.not_mem_nil, or_false] at he
    rcases he with rfl | rfl
    · exact hin (by decide) (by decide)
    · exact absurd hid (by decide)
  · obtain ⟨e, he, hid, -, hin⟩ :=
      h.2.1 (4, ⟨0x4000, false, ⟨12, 0x0E, false⟩, ⟨13, 0x0E, true⟩⟩) (by decide)
    simp only [twoOfEach, List.mem_cons, List.mem_singleton, List.not_mem_nil, or_false] at he
    rcases he with rfl | rfl
    · exact hin (by decide)
    · exact absurd hid (by decide)
  · obtain ⟨e, he, hid, -, hin⟩ :=
      h.2.2.1 (1, ⟨⟨10, 0x07, false⟩, ⟨11, 0x07, true⟩⟩) (by decide)
    simp only [twoOfEach, List.mem_cons, List.mem_singleton, List.not_mem_nil, or_false] at he
    rcases he with rfl | rfl
    · exact absurd hid (by decide)
    · exact hin (by decide)

/-! ## Dispatch: routing and frame -/

theorem mapGet_mapSet_self {α : Type} (m : List (Int × α)) (k : Int) (v : α) :
    mapGet (mapSet m k v) k = some v := by
  induction m with
  | nil => simp [mapSet, mapGet]
  | cons e rest ih =>
    obtain ⟨k1, v1⟩ := e
    by_cases hk : k1 = k
    · simp [mapSet, mapGet, hk]
    · simp [mapSet, mapGet, hk, ih]

theorem mapGet_mapSet_ne {α : Type} (m : List (Int × α)) (k k2 : Int) (v : α) (h : k2 ≠ k) :
    mapGet (mapSet m k v) k2 = mapGet m k2 := by
  induction m with
  | nil => simp [mapSet, mapGet, Ne.symm h]
  | cons e rest ih =>
    obtain ⟨k1, v1⟩ := e
    by_cases hk : k1 = k
    · subst hk
      simp [mapSet, mapGet, Ne.symm h]
    · by_cases hk2 : k1 = k2
      · subst hk2
        simp [mapSet, mapGet, h]
      · simp [mapSet, mapGet, hk, hk2, ih]

theorem mapSet_keys_of_get {α : Type} (m : List (Int × α)) (k : Int) (v v0 : α)
    (h : mapGet m k = some v0) : (mapSet m k v).map Prod.fst = m.map Prod.fst := by
  induction m with
  | nil => simp [mapGet] at h
  | cons e rest ih =>
    obtain ⟨k1, v1⟩ := e
    by_cases hk : k1 = k
    · simp [mapSet, hk]
    · simp only [mapGet, if_neg hk] at h
      simp [mapSet, hk, ih h]

theorem mapSet_get_self {α : Type} (m : List (Int × α)) (k : Int) (v : α)
    (h : mapGet m k = some v) : mapSet m k v = m := by
  induction m with
  | nil => simp [mapGet] at h
  | cons e rest ih =>
    obtain ⟨k1, v1⟩ := e
    by_cases hk : k1 = k
    · simp only [mapGet, if_pos hk, Option.some.injEq] at h
      simp [mapSet, hk, h]
    · simp only [mapGet, if_neg hk] at h
      simp [mapSet, hk, ih h]

theorem dispatch_button_done {c c1 : controller} {b st : Nat} {posted : List CGEventRef}
    (h : dispatch c (.ControllerButtonEvent b st) = .done c1 posted) :
    ∃ btn, mapGet c.Buttons (b : Int) = some btn ∧ c1 = c ∧
      posted = if st = 0 then [btn.up] else [btn.down] := by
  simp only [dispatch] at h
  cases hb : mapGet c.Buttons (b : Int) with
  | none => rw [hb] at h; exact Outcome.noConfusion h
  | some btn =>
    rw [hb] at h
    dsimp only at h
    have hset : mapSet c.Buttons (b : Int) btn = c.Buttons := mapSet_get_self _ _ _ hb
    refine ⟨btn, rfl, ?_⟩
    split_ifs at h with hs
    · simp only [button.handleUp, hset, Outcome.done.injEq] at h
      exact ⟨h.1.symm, by rw [if_pos hs]; exact h.2.symm⟩
    · simp only [button.handleDown, hset, Outcome.done.injEq] at h
      exact ⟨h.1.symm, by rw [if_neg hs]; exact h.2.symm⟩

theorem dispatch_trigger_done {c c1 : controller} {ax : Nat} {v : Int}
    {posted : List CGEventRef} (hid : isTriggerId ax)
    (h : dispatch c (.ControllerAxisEvent ax v) = .done c1 posted) :
    ∃ t, mapGet c.Triggers (ax : Int) = some t ∧
      c1 = { c with Triggers := mapSet c.Triggers (ax : Int) (t.handleEvent v).1 } ∧
      posted = (t.handleEvent v).2 := by
  have hid2 : ax = CONTROLLER_AXIS_TRIGGERLEFT ∨ ax = CONTROLLER_AXIS_TRIGGERRIGHT := hid
  simp only [dispatch, if_pos hid2] at h
  cases hb : mapGet c.Triggers (ax : Int) with
  | none => rw [hb] at h; exact Outcome.noConfusion h
  | some t =>
    rw [hb] at h
    simp only [Outcome.done.injEq] at h
    exact ⟨t, rfl, h.1.symm, h.2.symm⟩

theorem dispatch_axis_done {c c1 : controller} {ax : Nat} {v : Int}
    {posted : List CGEventRef} (hid : ¬ isTriggerId ax)
    (h : dispatch c (.ControllerAxisEvent ax v) = .done c1 posted) :
    ∃ a, mapGet c.Axes (ax : Int) = some a ∧
      c1 = { c with Axes := mapSet c.Axes (ax : Int) (a.handleEvent v).1 } ∧
      posted = (a.handleEvent v).2 := by
  have hid2 : ¬ (ax = CONTROLLER_AXIS_TRIGGERLEFT ∨ ax = CONTROLLER_AXIS_TRIGGERRIGHT) := hid
  simp only [dispatch, if_neg hid2] at h
  cases hb : mapGet c.Axes (ax : Int) with
  | none => rw [hb] at h; exact Outcome.noConfusion h
  | some a =>
    rw [hb] at h
    simp only [Outcome.done.injEq] at h
    exact ⟨a, rfl, h.1.symm, h.2.symm⟩

theorem axis_sameWiring_refl (a : axis) : a.sameWiring a := ⟨rfl, rfl, rfl, rfl, rfl⟩

theorem trigger_sameWiring_refl (t : trigger) : t.sameWiring t := ⟨rfl, rfl, rfl⟩

theorem isTriggerKey_cast (ax : Nat) : isTriggerKey (ax : Int) ↔ isTriggerId ax := by
  unfold isTriggerKey isTriggerId
  constructor
  · rintro (h | h)
    · exact Or.inl (Int.ofNat.inj h)
    · exact Or.inr (Int.ofNat.inj h)
  · rintro (h | h)
    · exact Or.inl (congrArg _ h)
    · exact Or.inr (congrArg _ h)

/-- C19: a dispatch that completes changes only the translator it is routed
to.  The buttons are unchanged; the keys of the three tables are unchanged;
every axis other than the one an axis sample is routed to, and every trigger
other than the one a trigger sample is routed to, is found unchanged; every
axis and trigger of the registry is found with the same threshold and the
same handles as before.  `handleEvent` keeps the threshold and the handles of
an axis and of a trigger, `handleUp` and `handleDown` keep the button. -/
theorem dispatch_frame (c c1 : controller) (e : Event) (posted : List CGEventRef)
    (h : dispatch c e = .done c1 posted) :
    c1.Buttons = c.Buttons ∧
      c1.Axes.map Prod.fst = c.Axes.map Prod.fst ∧
      c1.Triggers.map Prod.fst = c.Triggers.map Prod.fst ∧
      (∀ k : Int, (∀ ax v, e = .ControllerAxisEvent ax v → ¬ isTriggerId ax → k ≠ (ax : Int)) →
        mapGet c1.Axes k = mapGet c.Axes k) ∧
      (∀ k : Int, (∀ ax v, e = .ControllerAxisEvent ax v → isTriggerId ax → k ≠ (ax : Int)) →
        mapGet c1.Triggers k = mapGet c.Triggers k) ∧
      (∀ k a, mapGet c.Axes k = some a → ∃ a1, mapGet c1.Axes k = some a1 ∧ a.sameWiring a1) ∧
      (∀ k t, mapGet c.Triggers k = some t →
        ∃ t1, mapGet c1.Triggers k = some t1 ∧ t.sameWiring t1) ∧
      (∀ (a : axis) (v : Int), a.sameWiring (a.handleEvent v).1) ∧
      (∀ (t : trigger) (v : Int), t.sameWiring (t.handleEvent v).1) ∧
      (∀ b : button, b.handleUp.1 = b ∧ b.handleDown.1 = b) := by
  have hax : ∀ (a : axis) (v : Int), a.sameWiring (a.handleEvent v).1 :=
    fun a v => axis_handleEvent_frame a v
  have htr : ∀ (t : trigger) (v : Int), t.sameWiring (t.handleEvent v).1 :=
    fun t v => trigger_handleEvent_frame t v
  have hbt : ∀ b : button, b.handleUp.1 = b ∧ b.handleDown.1 = b := fun b => ⟨rfl, rfl⟩
  have hsame : c1 = c →
      c1.Buttons = c.Buttons ∧
      c1.Axes.map Prod.fst = c.Axes.map Prod.fst ∧
      c1.Triggers.map Prod.fst = c.Triggers.map Prod.fst ∧
      (∀ k : Int, (∀ ax v, e = .ControllerAxisEvent ax v → ¬ isTriggerId ax → k ≠ (ax : Int)) →
        mapGet c1.Axes k = mapGet c.Axes k) ∧
      (∀ k : Int, (∀ ax v, e = .ControllerAxisEvent ax v → isTriggerId ax → k ≠ (ax : Int)) →
        mapGet c1.Triggers k = mapGet c.Triggers k) ∧
      (∀ k a, mapGet c.Axes k = some a → ∃ a1, mapGet c1.Axes k = some a1 ∧ a.sameWiring a1) ∧
      (∀ k t, mapGet c.Triggers k = some t →
        ∃ t1, mapGet c1.Triggers k = some t1 ∧ t.sameWiring t1) := by
    rintro rfl
    exact ⟨rfl, rfl, rfl, fun _ _ => rfl, fun _ _ => rfl,
      fun k a hk => ⟨a, hk, axis_sameWiring_refl a⟩,
      fun k t hk => ⟨t, hk, trigger_sameWiring_refl t⟩⟩
  cases e with
  | ControllerButtonEvent b st =>
    obtain ⟨btn, -, hc, -⟩ := dispatch_button_done h
    obtain ⟨g1, g2, g3, g4, g5, g6, g7⟩ := hsame hc
    exact ⟨g1, g2, g3, g4, g5, g6, g7, hax, htr, hbt⟩
  | other =>
    simp only [dispatch, Outcome.done.injEq] at h
    obtain ⟨g1, g2, g3, g4, g5, g6, g7⟩ := hsame h.1.symm
    exact ⟨g1, g2, g3, g4, g5, g6, g7, hax, htr, hbt⟩
  | ControllerAxisEvent ax v =>
    by_cases hid : isTriggerId ax
    · obtain ⟨t0, ht0, rfl, -⟩ := dispatch_trigger_done hid h
      refine ⟨rfl, rfl, mapSet_keys_of_get _ _ _ _ ht0, fun _ _ => rfl, ?_,
        fun k a hk => ⟨a, hk, axis_sameWiring_refl a⟩, ?_, hax, htr, hbt⟩
      · intro k hk
        exact mapGet_mapSet_ne _ _ _ _ (hk ax v rfl hid)
      · intro k t hk
        by_cases hkk : k = (ax : Int)
        · subst hkk
          rw [ht0] at hk
          cases hk
          exact ⟨(t0.handleEvent v).1, mapGet_mapSet_self _ _ _, htr t0 v⟩
        · exact ⟨t, by dsimp only; rw [mapGet_mapSet_ne _ _ _ _ hkk]; exact hk,
            trigger_sameWiring_refl t⟩
    · obtain ⟨a0, ha0, rfl, -⟩ := dispatch_axis_done hid h
      refine ⟨rfl, mapSet_keys_of_get _ _ _ _ ha0, rfl, ?_, fun _ _ => rfl, ?_,
        fun k t hk => ⟨t, hk, trigger_sameWiring_refl t⟩, hax, htr, hbt⟩
      · intro k hk
        exact mapGet_mapSet_ne _ _ _ _ (hk ax v rfl hid)
      · intro k a hk
        by_cases hkk : k = (ax : Int)
        · subst hkk
          rw [ha0] at hk
          cases hk
          exact ⟨(a0.handleEvent v).1, mapGet_mapSet_self _ _ _, hax a0 v⟩
        · exact ⟨a, by dsimp only; rw [mapGet_mapSet_ne _ _ _ _ hkk]; exact hk,
            axis_sameWiring_refl a⟩

/-- Witness of C19: a sample that sets the positive latch of the left stick
in a registry that also holds a shadowed axis, a button and a trigger. -/
theorem dispatch_frame_witness :
    dispatch shadowedAxis (.ControllerAxisEvent 0 0x5000) =
        .done { shadowedAxis with
                Axes := [(0, { leftX with positive := true }), (4, leftX)] } [leftX.pDown] ∧
      mapGet ({ shadowedAxis with
          Axes := [(0, { leftX with positive := true }), (4, leftX)] } : controller).Axes 4 =
        mapGet shadowedAxis.Axes 4 :=
  ⟨by decide,
    (dispatch_frame shadowedAxis
      { shadowedAxis with Axes := [(0, { leftX with positive := true }), (4, leftX)] }
      (.ControllerAxisEvent 0 0x5000) [leftX.pDown] (by decide)).2.2.2.1 4
      (by intro ax v he _; cases he; decide)⟩

theorem dispatch_unrouted {c c1 : controller} {e : Event} {posted : List CGEventRef}
    (h : dispatch c e = .done c1 posted) :
    (∀ k : Int, isTriggerKey k → mapGet c1.Axes k = mapGet c.Axes k) ∧
      (∀ k : Int, ¬ isTriggerKey k → mapGet c1.Triggers k = mapGet c.Triggers k) := by
  cases e with
  | ControllerButtonEvent b st =>
    obtain ⟨btn, -, rfl, -⟩ := dispatch_button_done h
    exact ⟨fun _ _ => rfl, fun _ _ => rfl⟩
  | other =>
    simp only [dispatch, Outcome.done.injEq] at h
    rw [← h.1]
    exact ⟨fun _ _ => rfl, fun _ _ => rfl⟩
  | ControllerAxisEvent ax v =>
    by_cases hid : isTriggerId ax
    · obtain ⟨t0, -, rfl, -⟩ := dispatch_trigger_done hid h
      refine ⟨fun _ _ => rfl, fun k hk => mapGet_mapSet_ne _ _ _ _ ?_⟩
      rintro rfl
      exact hk ((isTriggerKey_cast ax).mpr hid)
    · obtain ⟨a0, -, rfl, -⟩ := dispatch_axis_done hid h
      refine ⟨fun k hk => mapGet_mapSet_ne _ _ _ _ ?_, fun _ _ => rfl⟩
      rintro rfl
      exact hid ((isTriggerKey_cast ax).mp hk)

theorem pollEvents_unrouted (es : List Event) (c c1 : controller) (posted : List CGEventRef)
    (h : pollEvents c es = .done c1 posted) :
    (∀ k : Int, isTriggerKey k → mapGet c1.Axes k = mapGet c.Axes k) ∧
      (∀ k : Int, ¬ isTriggerKey k → mapGet c1.Triggers k = mapGet c.Triggers k) := by
  induction es generalizing c posted with
  | nil =>
    simp only [pollEvents, Outcome.done.injEq] at h
    rw [← h.1]
    exact ⟨fun _ _ => rfl, fun _ _ => rfl⟩
  | cons e es ih =>
    simp only [pollEvents] at h
    cases hd : dispatch c e with
    | panicked p1 => rw [hd] at h; exact Outcome.noConfusion h
    | done c2 p1 =>
      rw [hd] at h
      dsimp only at h
      cases hr : pollEvents c2 es with
      | panicked p2 => rw [hr] at h; exact Outcome.noConfusion h
      | done c3 p2 =>
        rw [hr] at h
        simp only [Outcome.done.injEq] at h
        obtain ⟨rfl, -⟩ := h
        obtain ⟨s1, s2⟩ := dispatch_unrouted hd
        obtain ⟨r1, r2⟩ := ih c2 p2 hr
        exact ⟨fun k hk => (r1 k hk).trans (s1 k hk), fun k hk => (r2 k hk).trans (s2 k hk)⟩

/-- C20: the event loop routes an axis sample by its control id alone.  A
sample with the left or right trigger id is looked up in `Triggers` and
handled by `trigger.handleEvent`, whatever `Axes` holds; a sample with any
other id is looked up in `Axes` and handled by `axis.handleEvent`, whatever
`Triggers` holds.  Hence over any run of the loop an `Axes` entry stored
under a trigger id, and a `Triggers` entry stored under any other id, is
never changed.  A button event with state 0 is forwarded to `handleUp`, with
any other state to `handleDown`. -/
theorem dispatch_routing (c : controller) :
    (∀ (ax : Nat) (v : Int) (t : trigger), isTriggerId ax →
        mapGet c.Triggers (ax : Int) = some t →
        dispatch c (.ControllerAxisEvent ax v) =
          .done { c with Triggers := mapSet c.Triggers (ax : Int) (t.handleEvent v).1 }
            (t.handleEvent v).2) ∧
      (∀ (ax : Nat) (v : Int) (a : axis), ¬ isTriggerId ax →
        mapGet c.Axes (ax : Int) = some a →
        dispatch c (.ControllerAxisEvent ax v) =
          .done { c with Axes := mapSet c.Axes (ax : Int) (a.handleEvent v).1 }
            (a.handleEvent v).2) ∧
      (∀ (ax : Nat) (v : Int) (axes : List (Int × axis)), isTriggerId ax →
        (dispatch { c with Axes := axes } (.ControllerAxisEvent ax v)).posted =
          (dispatch c (.ControllerAxisEvent ax v)).posted) ∧
      (∀ (ax : Nat) (v : Int) (triggers : List (Int × trigger)), ¬ isTriggerId ax →
        (dispatch { c with Triggers := triggers } (.ControllerAxisEvent ax v)).posted =
          (dispatch c (.ControllerAxisEvent ax v)).posted) ∧
      (∀ (es : List Event) (c1 : controller) (posted : List CGEventRef),
        pollEvents c es = .done c1 posted →
        (∀ k : Int, isTriggerKey k → mapGet c1.Axes k = mapGet c.Axes k) ∧
        (∀ k : Int, ¬ isTriggerKey k → mapGet c1.Triggers k = mapGet c.Triggers k)) ∧
      (∀ (b st : Nat) (btn : button), mapGet c.Buttons (b : Int) = some btn →
        (st = 0 → dispatch c (.ControllerButtonEvent b st) = .done c btn.handleUp.2) ∧
        (st ≠ 0 → dispatch c (.ControllerButtonEvent b st) = .done c btn.handleDown.2)) := by
  refine ⟨?_, ?_, ?_, ?_, fun es c1 posted h => pollEvents_unrouted es c c1 posted h, ?_⟩
  · intro ax v t hid ht
    have hid2 : ax = CONTROLLER_AXIS_TRIGGERLEFT ∨ ax = CONTROLLER_AXIS_TRIGGERRIGHT := hid
    simp only [dispatch, if_pos hid2, ht]
  · intro ax v a hid ha
    have hid2 : ¬ (ax = CONTROLLER_AXIS_TRIGGERLEFT ∨ ax = CONTROLLER_AXIS_TRIGGERRIGHT) := hid
    simp only [dispatch, if_neg hid2, ha]
  · intro ax v axes hid
    have hid2 : ax = CONTROLLER_AXIS_TRIGGERLEFT ∨ ax = CONTROLLER_AXIS_TRIGGERRIGHT := hid
    simp only [dispatch, if_pos hid2]
    cases mapGet c.Triggers (ax : Int) <;> rfl
  · intro ax v triggers hid
    have hid2 : ¬ (ax = CONTROLLER_AXIS_TRIGGERLEFT ∨ ax = CONTROLLER_AXIS_TRIGGERRIGHT) := hid
    simp only [dispatch, if_neg hid2]
    cases mapGet c.Axes (ax : Int) <;> rfl
  · intro b st btn hb
    have hset : mapSet c.Buttons (b : Int) btn = c.Buttons := mapSet_get_self _ _ _ hb
    constructor
    · intro hs
      simp only [dispatch, hb, if_pos hs, button.handleUp, hset]
    · intro hs
      simp only [dispatch, hb, if_neg hs, button.handleDown, hset]

end Macintroller
